import Mathlib

/-
Verification development for the eve-pi-optimizer repository.

The embedding below translates `solve_mission` from src/main.py into Lean.
Node identities are the same strings Python uses ("Source", "Sink", agent
ids, planet ids, "planet|resource" pair nodes, resource names).  Python
dicts are translated as insertion-ordered association lists with
overwrite-on-reassign update, matching Python 3.7+ dict semantics.  The
call to the external library function networkx.max_flow_min_cost (the only
piece of behaviour not in the repository source) is embedded as an
executable successive-shortest-augmenting-path min-cost max-flow solver,
the algorithm the specification describes for it in section 4.3.
-/

set_option maxHeartbeats 1000000
set_option maxRecDepth 100000

namespace EvePi

/-- Association-list lookup with Python dict semantics (key found by equality). -/
def dlookup {α : Type} (k : String) : List (String × α) → Option α
  | [] => none
  | (k2, v) :: rest => if k2 = k then some v else dlookup k rest

/-- Association-list update with Python dict assignment semantics: overwrite the
existing entry in place, or append a new entry at the end. -/
def dupdate {α : Type} (k : String) (v : α) : List (String × α) → List (String × α)
  | [] => [(k, v)]
  | (k2, v2) :: rest => if k2 = k then (k2, v) :: rest else (k2, v2) :: dupdate k v rest

/-- Agent record (a `characters` list entry in src/main.py).  A missing
`banned` key in Python behaves exactly like an empty banned list, so the
field is total here. -/
structure Character where
  id : String
  max_visits : Nat
  banned : List String
deriving Repr, DecidableEq

/-- Location record (a `planet_data` list entry): identity plus the
insertion-ordered resource/abundance dict. -/
structure Planet where
  id : String
  resources : List (String × Int)
deriving Repr, DecidableEq

/-- Value of a `current_assignments` entry: either a planet-to-resource dict or
a bare list of planet ids (both shapes are accepted by the code). -/
inductive Prior where
  | pdict : List (String × String) → Prior
  | plist : List String → Prior
deriving Repr, DecidableEq

abbrev Targets := List (String × Nat)
abbrev Assignments := List (String × Prior)
abbrev EdgeList := List ((String × String) × Nat × Int)

/-- Node list of the DiGraph: node id paired with its optional `layer` attribute. -/
abbrev NodeList := List (String × Option Nat)

/-- Directed graph mirroring the networkx DiGraph that `solve_mission` builds:
nodes with a layer attribute and edges with capacity and weight. -/
structure Graph where
  nodes : NodeList
  edges : EdgeList
deriving Repr, DecidableEq

def nodeMem (nodes : NodeList) (n : String) : Bool :=
  nodes.any (fun e => e.1 == n)

/-- networkx `G.add_node(n, layer=l)`: update the attribute if the node exists,
otherwise append it. -/
def addNodeList (n : String) (layer : Nat) : NodeList → NodeList
  | [] => [(n, some layer)]
  | (m, a) :: rest => if m = n then (m, some layer) :: rest else (m, a) :: addNodeList n layer rest

/-- Node insertion performed implicitly by `G.add_edge` for a missing endpoint
(no layer attribute). -/
def ensureNode (nodes : NodeList) (n : String) : NodeList :=
  if nodeMem nodes n then nodes else nodes ++ [(n, none)]

/-- networkx `G.add_edge(u, v, capacity=c, weight=w)` on the edge list: update
the attributes in place if the edge exists, otherwise append it. -/
def addEdgeKey (u v : String) (c : Nat) (w : Int) : EdgeList → EdgeList
  | [] => [((u, v), c, w)]
  | (k, cw) :: rest =>
    if k = (u, v) then (k, c, w) :: rest else (k, cw) :: addEdgeKey u v c w rest

def Graph.addNode (G : Graph) (n : String) (layer : Nat) : Graph :=
  { G with nodes := addNodeList n layer G.nodes }

def Graph.hasNode (G : Graph) (n : String) : Bool :=
  nodeMem G.nodes n

def Graph.addEdge (G : Graph) (u v : String) (c : Nat) (w : Int) : Graph :=
  { nodes := ensureNode (ensureNode G.nodes u) v,
    edges := addEdgeKey u v c w G.edges }

/-- Lines 22-25 of src/main.py: `current_assignments.get(char['id'], [])`. -/
def priorPlanets (current_assignments : Assignments) (cid : String) : Prior :=
  (dlookup cid current_assignments).getD (Prior.plist [])

/-- Lines 44-48: `is_existing`, membership of the planet id in the dict keys or
in the list, depending on the shape of the entry. -/
def isExisting (cp : Prior) (pid : String) : Bool :=
  match cp with
  | .pdict m => (dlookup pid m).isSome
  | .plist l => l.contains pid

/-- Lines 27-53: the inner planet loop for one character, adding the planet
node (layer 2) when missing, skipping banned planets, and adding the
Character to Planet edge with capacity 1 and weight 0 or switching cost. -/
def addCharEdges (c : Character) (planet_data : List Planet) (current_assignments : Assignments)
    (switching_cost : Int) (G : Graph) : Graph :=
  planet_data.foldl (fun G planet =>
    let G := if G.hasNode planet.id then G else G.addNode planet.id 2
    if c.banned.contains planet.id then G
    else
      let w := if isExisting (priorPlanets current_assignments c.id) planet.id then 0
               else switching_cost
      G.addEdge c.id planet.id 1 w) G

/-- Lines 17-53: the character loop, adding agent nodes, Source to Character
edges with capacity max_visits, and the per-character planet edges. -/
def addCharStage (characters : List Character) (planet_data : List Planet)
    (current_assignments : Assignments) (switching_cost : Int) (G : Graph) : Graph :=
  characters.foldl (fun G c =>
    let G := G.addNode c.id 1
    let G := G.addEdge "Source" c.id c.max_visits 0
    addCharEdges c planet_data current_assignments switching_cost G) G

/-- Pair node identity built on line 63: `f"{p_id}|{res}"`. -/
def prNode (pid res : String) : String :=
  pid ++ "|" ++ res

/-- Lines 55-73: the Planet to Planet|Resource to Resource stage, only for
resources that are demanded, with capacity `len(characters)` and weight
minus abundance on the planet edge. -/
def addPRStage (planet_data : List Planet) (resource_targets : Targets) (nChars : Nat)
    (G : Graph) : Graph :=
  planet_data.foldl (fun G planet =>
    planet.resources.foldl (fun G rp =>
      if (dlookup rp.1 resource_targets).isSome then
        let pr := prNode planet.id rp.1
        let G := G.addNode pr 3
        let G := G.addEdge planet.id pr nChars (-rp.2)
        let G := if G.hasNode rp.1 then G else G.addNode rp.1 4
        G.addEdge pr rp.1 nChars 0
      else G) G) G

/-- Lines 75-80: Resource to Sink edges with capacity equal to the demand
target, creating the resource node when no planet offers the resource. -/
def addSinkStage (resource_targets : Targets) (G : Graph) : Graph :=
  resource_targets.foldl (fun G rt =>
    let G := if G.hasNode rt.1 then G else G.addNode rt.1 4
    G.addEdge rt.1 "Sink" rt.2 0) G

/-- Lines 8-80: full network construction. -/
def buildGraph (characters : List Character) (resource_targets : Targets)
    (planet_data : List Planet) (current_assignments : Assignments)
    (switching_cost : Int) : Graph :=
  let G : Graph := { nodes := [], edges := [] }
  let G := G.addNode "Source" 0
  let G := G.addNode "Sink" 5
  let G := addCharStage characters planet_data current_assignments switching_cost G
  let G := addPRStage planet_data resource_targets characters.length G
  addSinkStage resource_targets G

/- ----------------------------------------------------------------------
Min-cost max-flow solver.  This embeds the external call
`nx.max_flow_min_cost(G, source, sink)` as successive shortest augmenting
paths found with Bellman-Ford on the residual graph (specification 4.3).
Flows are a map from directed edge keys to natural numbers.
---------------------------------------------------------------------- -/

abbrev FlowMap := List ((String × String) × Nat)

/-- Flow value on a directed edge; absent edges carry zero flow. -/
def flookup (f : FlowMap) (u v : String) : Nat :=
  match f with
  | [] => 0
  | (k, x) :: rest => if k = (u, v) then x else flookup rest u v

def fset (u v : String) (x : Nat) : FlowMap → FlowMap
  | [] => [((u, v), x)]
  | (k, y) :: rest => if k = (u, v) then (k, x) :: rest else (k, y) :: fset u v x rest

/-- Residual arc: endpoints, the original edge it belongs to, its direction
relative to that edge, and its residual cost. -/
structure Arc where
  src : String
  dst : String
  ou : String
  ov : String
  fwd : Bool
  cost : Int
deriving Repr, DecidableEq

/-- Capacity and weight lookup in the edge list. -/
def elookup (es : EdgeList) (u v : String) : Option (Nat × Int) :=
  match es with
  | [] => none
  | (k, cw) :: rest => if k = (u, v) then some cw else elookup rest u v

/-- Residual arcs of the current flow: a forward arc while capacity remains and
a backward arc while flow remains, in edge insertion order. -/
def residualArcs (es : EdgeList) (f : FlowMap) : List Arc :=
  match es with
  | [] => []
  | ((u, v), c, w) :: rest =>
    let fl := flookup f u v
    (if fl < c then [⟨u, v, u, v, true, w⟩] else []) ++
    (if 0 < fl then [⟨v, u, u, v, false, -w⟩] else []) ++ residualArcs rest f

abbrev Dist := List (String × Int)
abbrev Preds := List (String × Arc)

/-- One Bellman-Ford relaxation of a single arc. -/
def relaxArc (st : Dist × Preds) (a : Arc) : Dist × Preds :=
  match dlookup a.src st.1 with
  | none => st
  | some du =>
    let cand := du + a.cost
    match dlookup a.dst st.1 with
    | none => (dupdate a.dst cand st.1, dupdate a.dst a st.2)
    | some dv => if cand < dv then (dupdate a.dst cand st.1, dupdate a.dst a st.2) else st

def bfLoop (arcs : List Arc) : Nat → Dist × Preds → Dist × Preds
  | 0, st => st
  | n + 1, st => bfLoop arcs n (arcs.foldl relaxArc st)

/-- Bellman-Ford from Source tolerating negative arc costs. -/
def bellmanFord (arcs : List Arc) (passes : Nat) : Dist × Preds :=
  bfLoop arcs passes ([("Source", 0)], [])

/-- Reconstruct the augmenting path by walking predecessors back from the sink. -/
def walkBack (pred : Preds) : String → Nat → Option (List Arc)
  | _, 0 => none
  | cur, fuel + 1 =>
    if cur = "Source" then some []
    else
      match dlookup cur pred with
      | none => none
      | some a =>
        match walkBack pred a.src fuel with
        | none => none
        | some pre => some (pre ++ [a])

/-- Residual capacity of an arc with respect to the current flow. -/
def rcap (es : EdgeList) (f : FlowMap) (a : Arc) : Nat :=
  match elookup es a.ou a.ov with
  | none => 0
  | some (c, _) => if a.fwd then c - flookup f a.ou a.ov else flookup f a.ou a.ov

/-- Safety check of a single arc: it refers to a real edge, its endpoints agree
with its direction, and it has remaining residual capacity. -/
def arcOK (es : EdgeList) (f : FlowMap) (a : Arc) : Bool :=
  match elookup es a.ou a.ov with
  | none => false
  | some (c, _) =>
    if a.fwd then a.src == a.ou && a.dst == a.ov && flookup f a.ou a.ov < c
    else a.src == a.ov && a.dst == a.ou && 0 < flookup f a.ou a.ov

/-- Chaining check: the arcs link the start node to the end node. -/
def chainB (s : String) : List Arc → String → Bool
  | [], t => s == t
  | a :: rest, t => s == a.src && chainB a.dst rest t

/-- Full validity check of a candidate augmenting path. -/
def pathOK (es : EdgeList) (f : FlowMap) (path : List Arc) : Bool :=
  !path.isEmpty && chainB "Source" path "Sink" && path.all (arcOK es f) &&
    decide ((path.map (fun a => (a.ou, a.ov))).Nodup)

def bottleneck (es : EdgeList) (f : FlowMap) : List Arc → Nat
  | [] => 0
  | [a] => rcap es f a
  | a :: rest => min (rcap es f a) (bottleneck es f rest)

/-- Push `b` units across one residual arc. -/
def applyArc (f : FlowMap) (a : Arc) (b : Nat) : FlowMap :=
  if a.fwd then fset a.ou a.ov (flookup f a.ou a.ov + b) f
  else fset a.ou a.ov (flookup f a.ou a.ov - b) f

def augmentPath (f : FlowMap) : List Arc → Nat → FlowMap
  | [], _ => f
  | a :: rest, b => augmentPath (applyArc f a b) rest b

/-- Main successive-shortest-path loop; stops when no valid augmenting path is
found or the fuel (a bound on the number of augmentations) runs out. -/
def sspLoop (es : EdgeList) (nNodes : Nat) : Nat → FlowMap → FlowMap
  | 0, f => f
  | fuel + 1, f =>
    let arcs := residualArcs es f
    let st := bellmanFord arcs nNodes
    match walkBack st.2 "Sink" (nNodes + 1) with
    | none => f
    | some path =>
      if pathOK es f path then
        sspLoop es nNodes fuel (augmentPath f path (bottleneck es f path))
      else f

/-- Total capacity leaving the source: an upper bound on the number of unit
augmentations, used as fuel. -/
def sourceCapSum (es : EdgeList) : Nat :=
  ((es.filter (fun e => e.1.1 == "Source")).map (fun e => e.2.1)).sum

/-- Embedding of the external `nx.max_flow_min_cost(G, "Source", "Sink")` call
on line 84 of src/main.py: a deterministic min-cost max-flow computation. -/
def maxFlowMinCost (G : Graph) : FlowMap :=
  sspLoop G.edges G.nodes.length (sourceCapSum G.edges + 1) []

/- ----------------------------------------------------------------------
Post-processing (lines 89-178 of src/main.py).
---------------------------------------------------------------------- -/

/-- Splitting a character list at every bar, as Python `split("|")` does. -/
def splitOnBar : List Char → List (List Char)
  | [] => [[]]
  | c :: rest =>
    match splitOnBar rest with
    | [] => [[]]
    | g :: gs => if c = '|' then [] :: g :: gs else (c :: g) :: gs

/-- Python `"|" in neighbor`. -/
def containsBar (s : String) : Bool :=
  s.data.contains '|'

/-- Python `neighbor.split("|")[1]`, defined on node names containing a bar. -/
def resName (s : String) : String :=
  match splitOnBar s.data with
  | _ :: second :: _ => ⟨second⟩
  | _ => ""

/-- Status tag attached to a work order line (lines 154-172). -/
inductive OrderTag where
  | newPlanet
  | planetSwitch
  | headSwitch
  | unchanged
deriving Repr, DecidableEq

/-- One work order line: either a collection entry (planet, resource, yield,
status tag) or the No Collection placeholder. -/
inductive Order where
  | collect (pid item : String) (abundance : Int) (tag : OrderTag)
  | noCollection (pid : String)
deriving Repr, DecidableEq

/-- Lines 100-106: characters with positive flow into this planet, in
character list order. -/
def visitorsAt (characters : List Character) (f : FlowMap) (pid : String) : List String :=
  (characters.filter (fun c => 0 < flookup f c.id pid)).map Character.id

/-- Loop body of lines 112-119: when an out-neighbor is a pair node with
positive flow, append one resource entry per flow unit and add the abundance
once per unit to the running total. -/
def itemStep (p : Planet) (f : FlowMap) (acc : List String × Int)
    (e : (String × String) × Nat × Int) : List String × Int :=
  let amt := flookup f e.1.1 e.1.2
  if 0 < amt ∧ containsBar e.1.2 then
    let r := resName e.1.2
    (acc.1 ++ List.replicate amt r, acc.2 + amt * (dlookup r p.resources).getD 0)
  else acc

/-- Lines 110-119: walk the out-neighbors of the planet node in edge insertion
order, expand each positive flow into that many repeated resource entries,
and accumulate the abundance total. -/
def itemsAt (es : EdgeList) (p : Planet) (f : FlowMap) : List String × Int :=
  (es.filter (fun e => e.1.1 == p.id)).foldl (itemStep p f) ([], 0)

/-- Lines 130-133: the resource this visitor previously collected at the
planet, when the prior entry is a dict. -/
def preferredRes (current_assignments : Assignments) (visitor pid : String) : Option String :=
  match (dlookup visitor current_assignments).getD (Prior.pdict []) with
  | .pdict m => dlookup pid m
  | .plist _ => none

/-- One iteration of the stability loop body (lines 129-138); the condition
mirrors the Python truthiness test `if preferred_res and preferred_res in
unassigned_items`. -/
def stabStep (current_assignments : Assignments) (pid : String)
    (st : List (String × Option String) × List String × List String) (v : String) :
    List (String × Option String) × List String × List String :=
  match preferredRes current_assignments v pid with
  | some r =>
    if r ≠ "" ∧ r ∈ st.2.2 then
      (dupdate v (some r) st.1, st.2.1.erase v, st.2.2.erase r)
    else st
  | none => st

/-- Lines 124-138: the greedy stability pass over the visitors. -/
def stabilityPass (current_assignments : Assignments) (pid : String)
    (visitors items : List String) :
    List (String × Option String) × List String × List String :=
  visitors.foldl (stabStep current_assignments pid) ([], visitors, items)

/-- Loop body of lines 141-146: pop the next item for this visitor, or record
the Python `None` assignment when the items have run out. -/
def fillStep (st : List (String × Option String) × List String) (v : String) :
    List (String × Option String) × List String :=
  match st.2 with
  | [] => (dupdate v none st.1, [])
  | i :: rest => (dupdate v (some i) st.1, rest)

/-- Lines 140-146: assign leftover items to leftover visitors in order; `none`
records the Python `None` assignment. -/
def fillPass (asg : List (String × Option String)) (pending items : List String) :
    List (String × Option String) :=
  (pending.foldl fillStep (asg, items)).1

/-- Lines 149-176: build one work order line for a visitor, mirroring the
Python truthiness test `if item:` (both `None` and the empty string take the
No Collection branch) and the status classification. -/
def orderFor (current_assignments : Assignments) (p : Planet) (visitor : String)
    (item : Option String) : Order :=
  match item with
  | some r =>
    if r = "" then Order.noCollection p.id
    else
      let abundance := (dlookup r p.resources).getD 0
      let curr := (dlookup visitor current_assignments).getD (Prior.pdict [])
      let hasHistory : Bool := match curr with
        | .pdict m => !m.isEmpty
        | .plist l => !l.isEmpty
      let isNewPlanet : Bool := match curr with
        | .pdict m => (dlookup p.id m).isNone
        | .plist l => !l.contains p.id
      let isHeadSwitch : Bool :=
        if isNewPlanet then false
        else match curr with
          | .pdict m => dlookup p.id m != some r
          | .plist _ => false
      let tag := if isNewPlanet then
          (if hasHistory then OrderTag.planetSwitch else OrderTag.newPlanet)
        else if isHeadSwitch then OrderTag.headSwitch else OrderTag.unchanged
      Order.collect p.id r abundance tag
  | none => Order.noCollection p.id

/-- Append one order line to the visitor entry of the work order dict. -/
def appendOrder (v : String) (o : Order) : List (String × List Order) → List (String × List Order)
  | [] => []
  | (k, os) :: rest =>
    if k = v then (k, os ++ [o]) :: rest else (k, os) :: appendOrder v o rest

/-- Line 92: `{char['id']: [] for char in characters}`. -/
def initOrders (characters : List Character) : List (String × List Order) :=
  characters.foldl (fun wo c => dupdate c.id ([] : List Order) wo) []

/-- Lines 95-176: process one planet, producing the updated work orders and
abundance total. -/
def processPlanet (current_assignments : Assignments) (characters : List Character)
    (es : EdgeList) (f : FlowMap) (wo : List (String × List Order)) (tot : Int)
    (p : Planet) : List (String × List Order) × Int :=
  let visitors := visitorsAt characters f p.id
  let its := itemsAt es p f
  let stab := stabilityPass current_assignments p.id visitors its.1
  let asg := fillPass stab.1 stab.2.1 stab.2.2
  let wo := visitors.foldl (fun wo v =>
    appendOrder v (orderFor current_assignments p v ((dlookup v asg).getD none)) wo) wo
  (wo, tot + its.2)

/-- Lines 89-178: the whole extraction over all planets. -/
def extractAll (current_assignments : Assignments) (characters : List Character)
    (es : EdgeList) (f : FlowMap) (planet_data : List Planet) :
    List (String × List Order) × Int :=
  planet_data.foldl
    (fun st p => processPlanet current_assignments characters es f st.1 st.2 p)
    (initOrders characters, 0)

/-- Result tuple of `solve_mission`: total abundance, work orders, the built
graph, and the flow dict. -/
structure SolveResult where
  total : Int
  work_orders : List (String × List Order)
  graph : Graph
  flow : FlowMap
deriving Repr, DecidableEq

/-- The top-level `solve_mission(characters, resource_targets, planet_data,
current_assignments, switching_cost)` of src/main.py.  The defaulted Python
parameters `current_assignments=None` and `switching_cost=1000000` are
passed explicitly by callers here. -/
def solve_mission (characters : List Character) (resource_targets : Targets)
    (planet_data : List Planet) (current_assignments : Assignments)
    (switching_cost : Int) : SolveResult :=
  let G := buildGraph characters resource_targets planet_data current_assignments switching_cost
  let f := maxFlowMinCost G
  let ext := extractAll current_assignments characters G.edges f planet_data
  ⟨ext.2, ext.1, G, f⟩

/-- Total demand quantity, the sum of the target dict values. -/
def demandSum (resource_targets : Targets) : Nat :=
  (resource_targets.map (fun rt => rt.2)).sum

/-- Flow into a node: sum of flow values over the edges that end there. -/
def inflowAux (es : EdgeList) (f : FlowMap) (n : String) : Nat :=
  match es with
  | [] => 0
  | ((u, v), _) :: rest => (if v = n then flookup f u v else 0) + inflowAux rest f n

/-- Flow out of a node: sum of flow values over the edges that start there. -/
def outflowAux (es : EdgeList) (f : FlowMap) (n : String) : Nat :=
  match es with
  | [] => 0
  | ((u, v), _) :: rest => (if u = n then flookup f u v else 0) + outflowAux rest f n

/-- Value of the flow: total flow arriving at the sink. -/
def flowValue (G : Graph) (f : FlowMap) : Nat :=
  inflowAux G.edges f "Sink"

/-- The yield recorded on one work order line: the abundance field of a
collection entry, zero for the No Collection placeholder. -/
def orderYield : Order → Int
  | .collect _ _ a _ => a
  | .noCollection _ => 0

/-- Whether a work order line is a real collection entry rather than the
No Collection placeholder. -/
def Order.isCollect : Order → Bool
  | .collect _ _ _ _ => true
  | .noCollection _ => false

/-- The yield of a work order line re-derived from the planet data: the
abundance of the collected resource at the planet the line names. -/
def orderYieldIn (pd : List Planet) : Order → Int
  | .collect pid item _ _ =>
    match pd.find? (fun q => q.id == pid) with
    | some q => (dlookup item q.resources).getD 0
    | none => 0
  | .noCollection _ => 0

/-- Total yield recorded across a work order dict. -/
def woSum (wo : List (String × List Order)) : Int :=
  (wo.map (fun kv => (kv.2.map orderYield).sum)).sum

/-- Total yield of a work order dict with every abundance re-derived from the
planet data. -/
def woSumIn (pd : List Planet) (wo : List (String × List Order)) : Int :=
  (wo.map (fun kv => (kv.2.map (orderYieldIn pd)).sum)).sum

/-- Every order line in the work order dict is a real collection entry whose
recorded abundance agrees with the planet data. -/
def AllOrders (pd : List Planet) (wo : List (String × List Order)) : Prop :=
  ∀ kv ∈ wo, ∀ o ∈ kv.2, o.isCollect = true ∧ orderYieldIn pd o = orderYield o

/- ----------------------------------------------------------------------
Flow properties (specification section 8, Testable Properties).
---------------------------------------------------------------------- -/

def edgeKeys (es : EdgeList) : List (String × String) :=
  es.map Prod.fst

@[simp]
lemma edgeKeys_nil : edgeKeys [] = [] := rfl

@[simp]
lemma edgeKeys_cons (e : (String × String) × Nat × Int) (es : EdgeList) :
    edgeKeys (e :: es) = e.1 :: edgeKeys es := rfl

/-- The built graph never stores two attribute records for one directed edge. -/
def keysNodup (es : EdgeList) : Prop :=
  (edgeKeys es).Nodup

instance (es : EdgeList) : Decidable (keysNodup es) :=
  inferInstanceAs (Decidable (edgeKeys es).Nodup)

lemma keysNodup_nil : keysNodup [] := List.nodup_nil

lemma keysNodup_cons {e : (String × String) × Nat × Int} {es : EdgeList} :
    keysNodup (e :: es) ↔ e.1 ∉ edgeKeys es ∧ keysNodup es := by
  unfold keysNodup
  simp

/-- Capacity respect: flow on every edge is at most the capacity. -/
def capRespects (es : EdgeList) (f : FlowMap) : Prop :=
  ∀ e ∈ es, flookup f e.1.1 e.1.2 ≤ e.2.1

/-- The flow assigns zero to every pair that is not an edge of the graph. -/
def flowOnEdges (es : EdgeList) (f : FlowMap) : Prop :=
  ∀ u v, elookup es u v = none → flookup f u v = 0

def conservedAt (es : EdgeList) (f : FlowMap) (n : String) : Prop :=
  inflowAux es f n = outflowAux es f n

/-- Flow conservation at every node other than Source and Sink. -/
def flowConserved (es : EdgeList) (f : FlowMap) : Prop :=
  ∀ n, n ≠ "Source" → n ≠ "Sink" → conservedAt es f n

/- ----------------------------------------------------------------------
Association list and lookup lemmas.
---------------------------------------------------------------------- -/

lemma foldl_preserve {α β : Type} (P : α → Prop) (step : α → β → α) :
    ∀ (l : List β) (init : α), P init → (∀ a b, b ∈ l → P a → P (step a b)) →
    P (l.foldl step init)
  | [], _, h0, _ => h0
  | b :: l, init, h0, h => by
    simpa using foldl_preserve P step l (step init b) (h init b (by simp) h0)
      (fun a b2 hb2 => h a b2 (by simp [hb2]))

lemma dlookup_dupdate {α : Type} (l : List (String × α)) (k k2 : String) (v : α) :
    dlookup k2 (dupdate k v l) = if k = k2 then some v else dlookup k2 l := by
  induction l with
  | nil => simp only [dupdate, dlookup]
  | cons e rest ih =>
    obtain ⟨k3, v3⟩ := e
    by_cases h3 : k3 = k
    · subst h3
      simp only [dupdate, if_pos rfl]
      by_cases h2 : k3 = k2 <;> simp [dlookup, h2]
    · simp only [dupdate, if_neg h3]
      by_cases h2 : k3 = k2
      · have hne : ¬ (k = k2) := by
          rw [← h2]
          exact fun hh => h3 hh.symm
        simp [dlookup, h2, hne]
      · simp [dlookup, h2, ih]

lemma flookup_fset (f : FlowMap) (u v a b : String) (x : Nat) :
    flookup (fset u v x f) a b = if (u, v) = (a, b) then x else flookup f a b := by
  induction f with
  | nil => simp only [fset, flookup]
  | cons e rest ih =>
    obtain ⟨k, y⟩ := e
    by_cases hk : k = (u, v)
    · subst hk
      simp only [fset, if_pos rfl]
      by_cases h2 : (u, v) = (a, b) <;> simp [flookup, h2]
    · simp only [fset, if_neg hk]
      by_cases h2 : k = (a, b)
      · have hne : ¬ ((u, v) = (a, b)) := by
          rw [← h2]
          exact fun hh => hk hh.symm
        simp [flookup, h2, hne]
      · simp [flookup, h2, ih]

lemma elookup_addEdgeKey (es : EdgeList) (u v a b : String) (c : Nat) (w : Int) :
    elookup (addEdgeKey u v c w es) a b
      = if (u, v) = (a, b) then some (c, w) else elookup es a b := by
  induction es with
  | nil => simp only [addEdgeKey, elookup]
  | cons e rest ih =>
    obtain ⟨k, cw⟩ := e
    by_cases hk : k = (u, v)
    · subst hk
      simp only [addEdgeKey, if_pos rfl]
      by_cases h2 : (u, v) = (a, b) <;> simp [elookup, h2]
    · simp only [addEdgeKey, if_neg hk]
      by_cases h2 : k = (a, b)
      · have hne : ¬ ((u, v) = (a, b)) := by
          rw [← h2]
          exact fun hh => hk hh.symm
        simp [elookup, h2, hne]
      · simp [elookup, h2, ih]

lemma mem_addEdgeKey (es : EdgeList) (u v : String) (c : Nat) (w : Int)
    (e : (String × String) × Nat × Int) (h : e ∈ addEdgeKey u v c w es) :
    e = ((u, v), c, w) ∨ e ∈ es := by
  induction es with
  | nil => simpa [addEdgeKey] using h
  | cons e2 rest ih =>
    obtain ⟨k, cw⟩ := e2
    by_cases hk : k = (u, v)
    · subst hk
      simp only [addEdgeKey, if_pos rfl] at h
      rcases List.mem_cons.mp h with h1 | h1
      · exact Or.inl h1
      · exact Or.inr (List.mem_cons_of_mem _ h1)
    · simp only [addEdgeKey, if_neg hk] at h
      rcases List.mem_cons.mp h with h1 | h1
      · exact Or.inr (by simp [h1])
      · rcases ih h1 with h2 | h2
        · exact Or.inl h2
        · exact Or.inr (List.mem_cons_of_mem _ h2)

lemma edgeKeys_addEdgeKey (es : EdgeList) (u v : String) (c : Nat) (w : Int) :
    edgeKeys (addEdgeKey u v c w es)
      = if (u, v) ∈ edgeKeys es then edgeKeys es else edgeKeys es ++ [(u, v)] := by
  induction es with
  | nil => simp [addEdgeKey]
  | cons e rest ih =>
    obtain ⟨k, cw⟩ := e
    by_cases hk : k = (u, v)
    · subst hk
      simp [addEdgeKey]
    · have hne : ¬ ((u, v) = k) := fun hh => hk hh.symm
      simp only [addEdgeKey, if_neg hk, edgeKeys_cons]
      by_cases hmem : (u, v) ∈ edgeKeys rest
      · simp [hmem, hne, ih]
      · simp [hmem, hne, ih]

lemma keysNodup_addEdgeKey (es : EdgeList) (u v : String) (c : Nat) (w : Int)
    (h : keysNodup es) : keysNodup (addEdgeKey u v c w es) := by
  unfold keysNodup
  rw [edgeKeys_addEdgeKey]
  by_cases hmem : (u, v) ∈ edgeKeys es
  · simpa [hmem] using h
  · rw [if_neg hmem]
    unfold keysNodup at h
    simp [List.nodup_append, hmem, h]

lemma elookup_some_mem (es : EdgeList) (u v : String) (cw : Nat × Int)
    (h : elookup es u v = some cw) : ((u, v), cw) ∈ es := by
  induction es with
  | nil => simp [elookup] at h
  | cons e rest ih =>
    obtain ⟨k, cw2⟩ := e
    by_cases hk : k = (u, v)
    · subst hk
      simp [elookup] at h
      simp [h]
    · simp only [elookup, if_neg hk] at h
      simp [ih h]

lemma elookup_none_not_mem (es : EdgeList) (u v : String)
    (h : elookup es u v = none) : (u, v) ∉ edgeKeys es := by
  induction es with
  | nil => simp
  | cons e rest ih =>
    obtain ⟨k, cw2⟩ := e
    by_cases hk : k = (u, v)
    · simp [elookup, hk] at h
    · simp only [elookup, if_neg hk] at h
      simp only [edgeKeys_cons, List.mem_cons]
      push_neg
      exact ⟨fun hh => hk hh.symm, ih h⟩

lemma mem_elookup (es : EdgeList) (e : (String × String) × Nat × Int)
    (hnd : keysNodup es) (h : e ∈ es) : elookup es e.1.1 e.1.2 = some e.2 := by
  induction es with
  | nil => simp at h
  | cons e2 rest ih =>
    obtain ⟨k, cw⟩ := e2
    rcases List.mem_cons.mp h with h1 | h1
    · subst h1
      simp [elookup]
    · have hknotin : k ∉ edgeKeys rest := by simpa using (keysNodup_cons.mp hnd).1
      have he1 : e.1 ∈ edgeKeys rest := List.mem_map_of_mem Prod.fst h1
      have hne : k ≠ (e.1.1, e.1.2) := by
        intro hc
        rw [Prod.mk.eta] at hc
        exact hknotin (hc ▸ he1)
      simp [elookup, hne, ih (keysNodup_cons.mp hnd).2 h1]

lemma mem_edgeKeys_elookup (es : EdgeList) (u v : String)
    (h : (u, v) ∈ edgeKeys es) : (elookup es u v).isSome := by
  induction es with
  | nil => simp at h
  | cons e rest ih =>
    obtain ⟨k, cw⟩ := e
    by_cases hk : k = (u, v)
    · simp [elookup, hk]
    · rw [edgeKeys_cons] at h
      rcases List.mem_cons.mp h with h1 | h1
      · exact absurd h1.symm hk
      · simp [elookup, hk, ih h1]

/- ----------------------------------------------------------------------
Flow sum lemmas.
---------------------------------------------------------------------- -/

lemma inflowAux_congr (es : EdgeList) (f g : FlowMap) (n : String)
    (h : ∀ e ∈ es, flookup f e.1.1 e.1.2 = flookup g e.1.1 e.1.2) :
    inflowAux es f n = inflowAux es g n := by
  induction es with
  | nil => rfl
  | cons e rest ih =>
    obtain ⟨⟨u, v⟩, cw⟩ := e
    have h1 := h ((u, v), cw) (by simp)
    simp only [inflowAux]
    rw [ih (fun e2 he2 => h e2 (by simp [he2])), h1]

lemma outflowAux_congr (es : EdgeList) (f g : FlowMap) (n : String)
    (h : ∀ e ∈ es, flookup f e.1.1 e.1.2 = flookup g e.1.1 e.1.2) :
    outflowAux es f n = outflowAux es g n := by
  induction es with
  | nil => rfl
  | cons e rest ih =>
    obtain ⟨⟨u, v⟩, cw⟩ := e
    have h1 := h ((u, v), cw) (by simp)
    simp only [outflowAux]
    rw [ih (fun e2 he2 => h e2 (by simp [he2])), h1]

lemma inflowAux_empty (es : EdgeList) (n : String) : inflowAux es [] n = 0 := by
  induction es with
  | nil => rfl
  | cons e rest ih =>
    obtain ⟨⟨u, v⟩, cw⟩ := e
    simp [inflowAux, flookup, ih]

lemma outflowAux_empty (es : EdgeList) (n : String) : outflowAux es [] n = 0 := by
  induction es with
  | nil => rfl
  | cons e rest ih =>
    obtain ⟨⟨u, v⟩, cw⟩ := e
    simp [outflowAux, flookup, ih]

lemma inflowAux_fset (es : EdgeList) (f : FlowMap) (u v n : String) (x : Nat)
    (hnd : keysNodup es) (hmem : (u, v) ∈ edgeKeys es) :
    inflowAux es (fset u v x f) n + (if v = n then flookup f u v else 0)
      = inflowAux es f n + (if v = n then x else 0) := by
  induction es with
  | nil => simp at hmem
  | cons e rest ih =>
    obtain ⟨⟨a, b⟩, cw⟩ := e
    by_cases hk : ((a, b) : String × String) = (u, v)
    · have ha : a = u := (Prod.mk.injEq .. ▸ hk).1
      have hb : b = v := (Prod.mk.injEq .. ▸ hk).2
      subst ha
      subst hb
      have hnotin : ((a, b) : String × String) ∉ edgeKeys rest := by
        simpa using (keysNodup_cons.mp hnd).1
      have hrest : inflowAux rest (fset a b x f) n = inflowAux rest f n := by
        apply inflowAux_congr
        intro e2 he2
        rw [flookup_fset]
        have hne : ¬ (((a, b) : String × String) = (e2.1.1, e2.1.2)) := by
          intro hc
          rw [Prod.mk.eta] at hc
          exact hnotin (hc ▸ List.mem_map_of_mem Prod.fst he2)
        simp [hne]
      simp only [inflowAux, hrest]
      rw [flookup_fset, if_pos rfl]
      split_ifs <;> omega
    · have hmem2 : ((u, v) : String × String) ∈ edgeKeys rest := by
        rw [edgeKeys_cons] at hmem
        rcases List.mem_cons.mp hmem with h1 | h1
        · exact absurd h1.symm hk
        · exact h1
      have hne : ¬ (((u, v) : String × String) = (a, b)) := fun hh => hk hh.symm
      simp only [inflowAux]
      rw [flookup_fset, if_neg hne]
      have := ih (keysNodup_cons.mp hnd).2 hmem2
      omega

lemma outflowAux_fset (es : EdgeList) (f : FlowMap) (u v n : String) (x : Nat)
    (hnd : keysNodup es) (hmem : (u, v) ∈ edgeKeys es) :
    outflowAux es (fset u v x f) n + (if u = n then flookup f u v else 0)
      = outflowAux es f n + (if u = n then x else 0) := by
  induction es with
  | nil => simp at hmem
  | cons e rest ih =>
    obtain ⟨⟨a, b⟩, cw⟩ := e
    by_cases hk : ((a, b) : String × String) = (u, v)
    · have ha : a = u := (Prod.mk.injEq .. ▸ hk).1
      have hb : b = v := (Prod.mk.injEq .. ▸ hk).2
      subst ha
      subst hb
      have hnotin : ((a, b) : String × String) ∉ edgeKeys rest := by
        simpa using (keysNodup_cons.mp hnd).1
      have hrest : outflowAux rest (fset a b x f) n = outflowAux rest f n := by
        apply outflowAux_congr
        intro e2 he2
        rw [flookup_fset]
        have hne : ¬ (((a, b) : String × String) = (e2.1.1, e2.1.2)) := by
          intro hc
          rw [Prod.mk.eta] at hc
          exact hnotin (hc ▸ List.mem_map_of_mem Prod.fst he2)
        simp [hne]
      simp only [outflowAux, hrest]
      rw [flookup_fset, if_pos rfl]
      split_ifs <;> omega
    · have hmem2 : ((u, v) : String × String) ∈ edgeKeys rest := by
        rw [edgeKeys_cons] at hmem
        rcases List.mem_cons.mp hmem with h1 | h1
        · exact absurd h1.symm hk
        · exact h1
      have hne : ¬ (((u, v) : String × String) = (a, b)) := fun hh => hk hh.symm
      simp only [outflowAux]
      rw [flookup_fset, if_neg hne]
      have := ih (keysNodup_cons.mp hnd).2 hmem2
      omega

/- ----------------------------------------------------------------------
Solver safety invariants: every flow produced by the solver respects
capacities, lives on graph edges only, and is conserved at interior nodes.
---------------------------------------------------------------------- -/

/-- Signed divergence of a node: outflow minus inflow, as an integer. -/
def divZ (es : EdgeList) (f : FlowMap) (n : String) : Int :=
  (outflowAux es f n : Int) - (inflowAux es f n : Int)

lemma conservedAt_iff_divZ (es : EdgeList) (f : FlowMap) (n : String) :
    conservedAt es f n ↔ divZ es f n = 0 := by
  unfold conservedAt divZ
  omega

lemma arcOK_spec (es : EdgeList) (f : FlowMap) (a : Arc) (h : arcOK es f a = true) :
    ∃ c w, elookup es a.ou a.ov = some (c, w) ∧
      ((a.fwd = true ∧ a.src = a.ou ∧ a.dst = a.ov ∧ flookup f a.ou a.ov < c) ∨
       (a.fwd = false ∧ a.src = a.ov ∧ a.dst = a.ou ∧ 0 < flookup f a.ou a.ov)) := by
  unfold arcOK at h
  rcases hel : elookup es a.ou a.ov with _ | ⟨c, w⟩
  · rw [hel] at h
    simp at h
  · rw [hel] at h
    refine ⟨c, w, rfl, ?_⟩
    by_cases hf : a.fwd
    · left
      simp [hf] at h
      refine ⟨hf, ?_, ?_, ?_⟩ <;> tauto
    · right
      have hf2 : a.fwd = false := by simpa using hf
      simp [hf2] at h
      refine ⟨hf2, ?_, ?_, ?_⟩ <;> tauto

lemma flookup_applyArc_ne (f : FlowMap) (a : Arc) (b : Nat) (x y : String)
    (h : ¬ ((a.ou, a.ov) = (x, y))) :
    flookup (applyArc f a b) x y = flookup f x y := by
  unfold applyArc
  split <;> rw [flookup_fset] <;> simp [h]

lemma arcOK_applyArc_ne (es : EdgeList) (f : FlowMap) (a a2 : Arc) (b : Nat)
    (h : ¬ ((a.ou, a.ov) = (a2.ou, a2.ov))) :
    arcOK es (applyArc f a b) a2 = arcOK es f a2 := by
  unfold arcOK
  rw [flookup_applyArc_ne f a b a2.ou a2.ov h]

lemma rcap_applyArc_ne (es : EdgeList) (f : FlowMap) (a a2 : Arc) (b : Nat)
    (h : ¬ ((a.ou, a.ov) = (a2.ou, a2.ov))) :
    rcap es (applyArc f a b) a2 = rcap es f a2 := by
  unfold rcap
  rw [flookup_applyArc_ne f a b a2.ou a2.ov h]

lemma divZ_applyArc (es : EdgeList) (f : FlowMap) (a : Arc) (b : Nat) (n : String)
    (hnd : keysNodup es) (hok : arcOK es f a = true)
    (hble : a.fwd = false → b ≤ flookup f a.ou a.ov) :
    divZ es (applyArc f a b) n
      = divZ es f n + (if a.src = n then (b : Int) else 0)
        - (if a.dst = n then (b : Int) else 0) := by
  obtain ⟨c, w, hel, hcase⟩ := arcOK_spec es f a hok
  have hkey : (a.ou, a.ov) ∈ edgeKeys es :=
    List.mem_map_of_mem Prod.fst (elookup_some_mem es a.ou a.ov (c, w) hel)
  rcases hcase with ⟨hf, hsrc, hdst, _⟩ | ⟨hf, hsrc, hdst, _⟩
  · have happ : applyArc f a b = fset a.ou a.ov (flookup f a.ou a.ov + b) f := by
      unfold applyArc
      simp [hf]
    have hin := inflowAux_fset es f a.ou a.ov n (flookup f a.ou a.ov + b) hnd hkey
    have hout := outflowAux_fset es f a.ou a.ov n (flookup f a.ou a.ov + b) hnd hkey
    rw [happ]
    unfold divZ
    rw [hsrc, hdst]
    by_cases hou : a.ou = n <;> by_cases hov : a.ov = n <;>
      simp only [hou, hov, if_true, if_false, ite_true, ite_false, if_pos, if_neg,
        not_false_iff] at hin hout ⊢ <;>
      simp [hou, hov] at hin hout ⊢ <;> omega
  · have hb2 : b ≤ flookup f a.ou a.ov := hble hf
    have happ : applyArc f a b = fset a.ou a.ov (flookup f a.ou a.ov - b) f := by
      unfold applyArc
      simp [hf]
    have hin := inflowAux_fset es f a.ou a.ov n (flookup f a.ou a.ov - b) hnd hkey
    have hout := outflowAux_fset es f a.ou a.ov n (flookup f a.ou a.ov - b) hnd hkey
    rw [happ]
    unfold divZ
    rw [hsrc, hdst]
    by_cases hou : a.ou = n <;> by_cases hov : a.ov = n <;>
      simp [hou, hov] at hb2 hin hout ⊢ <;> omega

lemma augmentPath_cons (f : FlowMap) (a : Arc) (rest : List Arc) (b : Nat) :
    augmentPath f (a :: rest) b = augmentPath (applyArc f a b) rest b := rfl

lemma flookup_augmentPath_notin (b : Nat) (x y : String) (path : List Arc) :
    ∀ (f : FlowMap), ((x, y) ∉ path.map (fun a2 => (a2.ou, a2.ov))) →
      flookup (augmentPath f path b) x y = flookup f x y := by
  induction path with
  | nil => intro f _; rfl
  | cons a rest ih =>
    intro f h
    simp only [List.map_cons, List.mem_cons] at h
    push_neg at h
    rw [augmentPath_cons, ih (applyArc f a b) h.2,
      flookup_applyArc_ne f a b x y (fun hc => h.1 hc.symm)]

lemma flookup_augmentPath_arc (b : Nat) (path : List Arc) :
    ∀ (f : FlowMap) (a : Arc), a ∈ path →
      (path.map (fun a2 => (a2.ou, a2.ov))).Nodup →
      flookup (augmentPath f path b) a.ou a.ov
        = if a.fwd then flookup f a.ou a.ov + b else flookup f a.ou a.ov - b := by
  induction path with
  | nil => intro f a ha; simp at ha
  | cons hd rest ih =>
    intro f a ha hnd2
    simp only [List.map_cons, List.nodup_cons] at hnd2
    rcases List.mem_cons.mp ha with h1 | h1
    · subst h1
      rw [augmentPath_cons, flookup_augmentPath_notin b a.ou a.ov rest _ hnd2.1]
      by_cases hf : a.fwd <;> simp [applyArc, hf, flookup_fset]
    · have hne : ¬ ((hd.ou, hd.ov) = (a.ou, a.ov)) := by
        intro hc
        exact hnd2.1 (hc ▸ List.mem_map_of_mem (fun a2 => (a2.ou, a2.ov)) h1)
      rw [augmentPath_cons, ih (applyArc f hd b) a h1 hnd2.2,
        flookup_applyArc_ne f hd b a.ou a.ov hne]

lemma bottleneck_le_rcap (es : EdgeList) (f : FlowMap) :
    ∀ (path : List Arc) (a : Arc), a ∈ path → bottleneck es f path ≤ rcap es f a := by
  intro path
  induction path with
  | nil => intro a ha; simp at ha
  | cons hd tl ih =>
    intro a ha
    rcases List.mem_cons.mp ha with h1 | h1
    · subst h1
      cases tl with
      | nil => simp [bottleneck]
      | cons hd2 tl2 => simp [bottleneck]
    · cases tl with
      | nil => simp at h1
      | cons hd2 tl2 =>
        calc bottleneck es f (hd :: hd2 :: tl2)
            ≤ bottleneck es f (hd2 :: tl2) := by simp [bottleneck]
          _ ≤ rcap es f a := ih a h1

lemma augmentPath_divZ (es : EdgeList) (b : Nat) (t n : String) (hnd : keysNodup es)
    (path : List Arc) :
    ∀ (f : FlowMap) (s : String),
      chainB s path t = true →
      (∀ a ∈ path, arcOK es f a = true) →
      (∀ a ∈ path, b ≤ rcap es f a) →
      (path.map (fun a2 => (a2.ou, a2.ov))).Nodup →
      divZ es (augmentPath f path b) n
        = divZ es f n + (if s = n then (b : Int) else 0)
          - (if t = n then (b : Int) else 0) := by
  induction path with
  | nil =>
    intro f s hchain _ _ _
    have hst : s = t := by simpa [chainB] using hchain
    subst hst
    simp [augmentPath]
  | cons a rest ih =>
    intro f s hchain hok hble hnd2
    have hchain2 : s = a.src ∧ chainB a.dst rest t = true := by
      simpa [chainB] using hchain
    obtain ⟨hs, hchainr⟩ := hchain2
    subst hs
    simp only [List.map_cons, List.nodup_cons] at hnd2
    have hoka := hok a (by simp)
    have hblea := hble a (by simp)
    have hblef : a.fwd = false → b ≤ flookup f a.ou a.ov := by
      intro hf
      obtain ⟨c, w, hel, _⟩ := arcOK_spec es f a hoka
      unfold rcap at hblea
      rw [hel] at hblea
      simpa [hf] using hblea
    have hstep := divZ_applyArc es f a b n hnd hoka hblef
    have hrest_ok : ∀ a2 ∈ rest, arcOK es (applyArc f a b) a2 = true := by
      intro a2 ha2
      have hne : ¬ ((a.ou, a.ov) = (a2.ou, a2.ov)) := by
        intro hc
        exact hnd2.1 (hc ▸ List.mem_map_of_mem (fun a2 => (a2.ou, a2.ov)) ha2)
      rw [arcOK_applyArc_ne es f a a2 b hne]
      exact hok a2 (by simp [ha2])
    have hrest_ble : ∀ a2 ∈ rest, b ≤ rcap es (applyArc f a b) a2 := by
      intro a2 ha2
      have hne : ¬ ((a.ou, a.ov) = (a2.ou, a2.ov)) := by
        intro hc
        exact hnd2.1 (hc ▸ List.mem_map_of_mem (fun a2 => (a2.ou, a2.ov)) ha2)
      rw [rcap_applyArc_ne es f a a2 b hne]
      exact hble a2 (by simp [ha2])
    rw [augmentPath_cons, ih (applyArc f a b) a.dst hchainr hrest_ok hrest_ble hnd2.2, hstep]
    ring

lemma pathOK_spec (es : EdgeList) (f : FlowMap) (path : List Arc)
    (h : pathOK es f path = true) :
    chainB "Source" path "Sink" = true ∧ (∀ a ∈ path, arcOK es f a = true) ∧
      (path.map (fun a2 => (a2.ou, a2.ov))).Nodup := by
  unfold pathOK at h
  simp only [Bool.and_eq_true, decide_eq_true_eq, List.all_eq_true] at h
  exact ⟨h.1.1.2, h.1.2, h.2⟩

lemma rcap_eq (es : EdgeList) (f : FlowMap) (a : Arc) (c : Nat) (w : Int)
    (h : elookup es a.ou a.ov = some (c, w)) :
    rcap es f a = if a.fwd then c - flookup f a.ou a.ov else flookup f a.ou a.ov := by
  unfold rcap
  rw [h]

lemma capRespects_augmentPath (es : EdgeList) (f : FlowMap) (path : List Arc) (b : Nat)
    (hnd : keysNodup es) (hcap : capRespects es f)
    (hok : ∀ a ∈ path, arcOK es f a = true)
    (hble : ∀ a ∈ path, b ≤ rcap es f a)
    (hndp : (path.map (fun a2 => (a2.ou, a2.ov))).Nodup) :
    capRespects es (augmentPath f path b) := by
  intro e he
  obtain ⟨⟨eu, ev⟩, ec, ew⟩ := e
  show flookup (augmentPath f path b) eu ev ≤ ec
  by_cases hmem : (eu, ev) ∈ path.map (fun a2 => (a2.ou, a2.ov))
  · obtain ⟨a, ha, hae⟩ := List.mem_map.mp hmem
    have hou : a.ou = eu := (Prod.mk.injEq .. ▸ hae).1
    have hov : a.ov = ev := (Prod.mk.injEq .. ▸ hae).2
    have hkey : elookup es a.ou a.ov = some (ec, ew) := by
      rw [hou, hov]
      exact mem_elookup es ((eu, ev), ec, ew) hnd he
    have hval := flookup_augmentPath_arc b path f a ha hndp
    have hblea := hble a ha
    obtain ⟨c, w, hel, hcase⟩ := arcOK_spec es f a (hok a ha)
    rw [rcap_eq es f a c w hel] at hblea
    have hce : ec = c := by
      rw [hkey] at hel
      simp [Prod.ext_iff] at hel
      exact hel.1
    rw [← hou, ← hov, hval]
    rcases hcase with ⟨hf, _, _, hlt⟩ | ⟨hf, _, _, hpos⟩
    · rw [if_pos hf] at hblea ⊢
      omega
    · have hnf : ¬ (a.fwd = true) := by simp [hf]
      rw [if_neg hnf] at hblea ⊢
      have hle : flookup f eu ev ≤ ec := hcap ((eu, ev), ec, ew) he
      rw [← hou, ← hov] at hle
      omega
  · rw [flookup_augmentPath_notin b eu ev path f hmem]
    exact hcap ((eu, ev), ec, ew) he

lemma flowOnEdges_augmentPath (es : EdgeList) (f : FlowMap) (path : List Arc) (b : Nat)
    (hfe : flowOnEdges es f) (hok : ∀ a ∈ path, arcOK es f a = true) :
    flowOnEdges es (augmentPath f path b) := by
  intro u v hel
  have hnotin : (u, v) ∉ path.map (fun a2 => (a2.ou, a2.ov)) := by
    intro hmem
    obtain ⟨a, ha, hae⟩ := List.mem_map.mp hmem
    obtain ⟨c, w, hel2, _⟩ := arcOK_spec es f a (hok a ha)
    have hou : a.ou = u := (Prod.mk.injEq .. ▸ hae).1
    have hov : a.ov = v := (Prod.mk.injEq .. ▸ hae).2
    rw [hou, hov, hel] at hel2
    cases hel2
  rw [flookup_augmentPath_notin b u v path f hnotin]
  exact hfe u v hel

lemma flowConserved_augmentPath (es : EdgeList) (f : FlowMap) (path : List Arc)
    (hnd : keysNodup es) (hcons : flowConserved es f)
    (hchain : chainB "Source" path "Sink" = true)
    (hok : ∀ a ∈ path, arcOK es f a = true)
    (hndp : (path.map (fun a2 => (a2.ou, a2.ov))).Nodup) :
    flowConserved es (augmentPath f path (bottleneck es f path)) := by
  intro n hn1 hn2
  rw [conservedAt_iff_divZ]
  rw [augmentPath_divZ es (bottleneck es f path) "Sink" n hnd path f "Source" hchain hok
    (fun a ha => bottleneck_le_rcap es f path a ha) hndp]
  have h1 : ¬ ("Source" = n) := fun hc => hn1 hc.symm
  have h2 : ¬ ("Sink" = n) := fun hc => hn2 hc.symm
  rw [if_neg h1, if_neg h2]
  have := (conservedAt_iff_divZ es f n).mp (hcons n hn1 hn2)
  omega

lemma sspLoop_inv (es : EdgeList) (nN : Nat) (hnd : keysNodup es) :
    ∀ (fuel : Nat) (f : FlowMap),
      capRespects es f → flowOnEdges es f → flowConserved es f →
      capRespects es (sspLoop es nN fuel f) ∧ flowOnEdges es (sspLoop es nN fuel f) ∧
        flowConserved es (sspLoop es nN fuel f)
  | 0, f, hc, hf, hcons => ⟨hc, hf, hcons⟩
  | fuel + 1, f, hc, hf, hcons => by
    rw [sspLoop]
    split
    · exact ⟨hc, hf, hcons⟩
    · rename_i path hwb
      split
      · rename_i hpok
        obtain ⟨hchain, hok, hndp⟩ := pathOK_spec es f path hpok
        exact sspLoop_inv es nN hnd fuel _
          (capRespects_augmentPath es f path (bottleneck es f path) hnd hc hok
            (fun a ha => bottleneck_le_rcap es f path a ha) hndp)
          (flowOnEdges_augmentPath es f path (bottleneck es f path) hf hok)
          (flowConserved_augmentPath es f path hnd hcons hchain hok hndp)
      · exact ⟨hc, hf, hcons⟩

/-- The flow returned by the embedded min-cost max-flow solver respects all
capacities, lives only on graph edges, and is conserved at every interior
node (specification section 8: flow conservation and capacity respect). -/
lemma maxFlowMinCost_invariants (G : Graph) (hnd : keysNodup G.edges) :
    capRespects G.edges (maxFlowMinCost G) ∧ flowOnEdges G.edges (maxFlowMinCost G) ∧
      flowConserved G.edges (maxFlowMinCost G) := by
  unfold maxFlowMinCost
  apply sspLoop_inv G.edges G.nodes.length hnd
  · intro e _
    exact Nat.zero_le _
  · intro u v _
    rfl
  · intro n _ _
    unfold conservedAt
    rw [inflowAux_empty, outflowAux_empty]

/- ----------------------------------------------------------------------
String facts about the pair node encoding "planet|resource".
---------------------------------------------------------------------- -/

/-- A name that contains no bar character; any such name is distinct from
every pair node name. -/
def barFree (s : String) : Prop :=
  '|' ∉ s.data

instance (s : String) : Decidable (barFree s) :=
  inferInstanceAs (Decidable ('|' ∉ s.data))

lemma prNode_data (pid res : String) :
    (prNode pid res).data = pid.data ++ '|' :: res.data := by
  show (pid ++ "|" ++ res).data = pid.data ++ '|' :: res.data
  rw [String.data_append, String.data_append]
  have h : ("|" : String).data = ['|'] := rfl
  rw [h, List.append_assoc]
  rfl

lemma bar_mem_prNode (pid res : String) : '|' ∈ (prNode pid res).data := by
  rw [prNode_data]
  simp

lemma barFree_ne_prNode (s pid res : String) (h : barFree s) : s ≠ prNode pid res := by
  intro hc
  exact h (hc ▸ bar_mem_prNode pid res)

lemma barList_split (l1 : List Char) :
    ∀ (l2 m1 m2 : List Char), '|' ∉ l1 → '|' ∉ l2 →
      l1 ++ '|' :: m1 = l2 ++ '|' :: m2 → l1 = l2 ∧ m1 = m2 := by
  induction l1 with
  | nil =>
    intro l2 m1 m2 _ h2 heq
    cases l2 with
    | nil => simpa using heq
    | cons c l2t =>
      simp at heq
      exact absurd (heq.1 ▸ List.mem_cons_self c l2t) h2
  | cons c l1t ih =>
    intro l2 m1 m2 h1 h2 heq
    cases l2 with
    | nil =>
      simp at heq
      exact absurd (heq.1 ▸ List.mem_cons_self c l1t) h1
    | cons d l2t =>
      simp at heq
      obtain ⟨hcd, heq2⟩ := heq
      have := ih l2t m1 m2 (fun hm => h1 (List.mem_cons_of_mem c hm))
        (fun hm => h2 (List.mem_cons_of_mem d hm)) heq2
      exact ⟨by simp [hcd, this.1], this.2⟩

lemma prNode_inj (p1 r1 p2 r2 : String) (h1 : barFree p1) (h2 : barFree p2)
    (h : prNode p1 r1 = prNode p2 r2) : p1 = p2 ∧ r1 = r2 := by
  have hd : p1.data ++ '|' :: r1.data = p2.data ++ '|' :: r2.data := by
    rw [← prNode_data, ← prNode_data, h]
  obtain ⟨ha, hb⟩ := barList_split p1.data p2.data r1.data r2.data h1 h2 hd
  exact ⟨String.ext ha, String.ext hb⟩

lemma splitOnBar_ne_nil : ∀ (l : List Char), splitOnBar l ≠ []
  | [] => by simp [splitOnBar]
  | c :: rest => by
    simp only [splitOnBar]
    cases h : splitOnBar rest with
    | nil => simp
    | cons g gs => by_cases hc : c = '|' <;> simp [hc]

lemma splitOnBar_notBar (l : List Char) (h : '|' ∉ l) : splitOnBar l = [l] := by
  induction l with
  | nil => rfl
  | cons c rest ih =>
    have hc : ¬ (c = '|') := fun hh => h (hh ▸ List.mem_cons_self c rest)
    have hr : '|' ∉ rest := fun hm => h (List.mem_cons_of_mem c hm)
    simp only [splitOnBar, ih hr]
    simp [hc]

lemma splitOnBar_append (l m : List Char) (h : '|' ∉ l) :
    splitOnBar (l ++ '|' :: m) = l :: splitOnBar m := by
  induction l with
  | nil =>
    simp only [List.nil_append, splitOnBar]
    cases hm : splitOnBar m with
    | nil => exact absurd hm (splitOnBar_ne_nil m)
    | cons g gs => simp
  | cons c rest ih =>
    have hc : ¬ (c = '|') := fun hh => h (hh ▸ List.mem_cons_self c rest)
    have hr : '|' ∉ rest := fun hm => h (List.mem_cons_of_mem c hm)
    show splitOnBar (c :: (rest ++ '|' :: m)) = (c :: rest) :: splitOnBar m
    simp only [splitOnBar]
    rw [ih hr]
    simp [hc]

lemma resName_prNode (pid res : String) (h1 : barFree pid) (h2 : barFree res) :
    resName (prNode pid res) = res := by
  unfold resName
  rw [prNode_data, splitOnBar_append pid.data res.data h1, splitOnBar_notBar res.data h2]

lemma containsBar_prNode (pid res : String) : containsBar (prNode pid res) = true := by
  unfold containsBar
  rw [prNode_data]
  simp

lemma containsBar_barFree (s : String) (h : barFree s) : ¬ (containsBar s = true) := by
  unfold containsBar
  simpa using h

/- ----------------------------------------------------------------------
Structural validity of an input instance (specification section 7 calls
inputs outside this class structurally invalid).
---------------------------------------------------------------------- -/

/-- Structural validity of a `solve_mission` input: distinct identities within
each class, identities disjoint across classes and from the reserved node
names, no bar character inside an identity (the pair node separator), and no
empty resource name. -/
structure ValidInput (characters : List Character) (resource_targets : Targets)
    (planet_data : List Planet) : Prop where
  chars_nodup : (characters.map Character.id).Nodup
  planets_nodup : (planet_data.map Planet.id).Nodup
  targets_nodup : (resource_targets.map Prod.fst).Nodup
  chars_bar : ∀ c ∈ characters, barFree c.id
  planets_bar : ∀ p ∈ planet_data, barFree p.id
  targets_bar : ∀ rt ∈ resource_targets, barFree rt.1
  targets_ne_empty : ∀ rt ∈ resource_targets, rt.1 ≠ ""
  chars_not_sp : ∀ c ∈ characters, c.id ≠ "Source" ∧ c.id ≠ "Sink"
  planets_not_sp : ∀ p ∈ planet_data, p.id ≠ "Source" ∧ p.id ≠ "Sink"
  targets_not_sp : ∀ rt ∈ resource_targets, rt.1 ≠ "Source" ∧ rt.1 ≠ "Sink"
  chars_planets : ∀ c ∈ characters, ∀ p ∈ planet_data, c.id ≠ p.id
  chars_targets : ∀ c ∈ characters, ∀ rt ∈ resource_targets, c.id ≠ rt.1
  planets_targets : ∀ p ∈ planet_data, ∀ rt ∈ resource_targets, p.id ≠ rt.1

/- ----------------------------------------------------------------------
The edge list of the built graph as pure edge-list folds: the node
bookkeeping never influences the edge list.
---------------------------------------------------------------------- -/

def charPlanetFold (c : Character) (ca : Assignments) (sc : Int) (pd : List Planet)
    (es : EdgeList) : EdgeList :=
  pd.foldl (fun es p =>
    if c.banned.contains p.id then es
    else addEdgeKey c.id p.id 1 (if isExisting (priorPlanets ca c.id) p.id then 0 else sc) es) es

def charStageFold (characters : List Character) (pd : List Planet) (ca : Assignments)
    (sc : Int) (es : EdgeList) : EdgeList :=
  characters.foldl (fun es c =>
    charPlanetFold c ca sc pd (addEdgeKey "Source" c.id c.max_visits 0 es)) es

def prStageFold (pd : List Planet) (resource_targets : Targets) (n : Nat)
    (es : EdgeList) : EdgeList :=
  pd.foldl (fun es p => p.resources.foldl (fun es rp =>
    if (dlookup rp.1 resource_targets).isSome then
      addEdgeKey (prNode p.id rp.1) rp.1 n 0 (addEdgeKey p.id (prNode p.id rp.1) n (-rp.2) es)
    else es) es) es

def sinkStageFold (resource_targets : Targets) (es : EdgeList) : EdgeList :=
  resource_targets.foldl (fun es rt => addEdgeKey rt.1 "Sink" rt.2 0 es) es

lemma edges_addEdge_ite (H : Graph) (x : String) (l : Nat) (u v : String) (c : Nat) (w : Int) :
    ((if H.hasNode x then H else H.addNode x l).addEdge u v c w).edges
      = addEdgeKey u v c w H.edges := by
  by_cases hn : H.hasNode x <;> simp [hn, Graph.addNode, Graph.addEdge]

lemma addCharEdges_edges (c : Character) (ca : Assignments) (sc : Int) :
    ∀ (pd : List Planet) (G : Graph),
      (addCharEdges c pd ca sc G).edges = charPlanetFold c ca sc pd G.edges
  | [], _ => rfl
  | p :: rest, G => by
    have hcons : addCharEdges c (p :: rest) ca sc G
        = addCharEdges c rest ca sc
          (let G2 := if G.hasNode p.id then G else G.addNode p.id 2
           if c.banned.contains p.id then G2
           else G2.addEdge c.id p.id 1
             (if isExisting (priorPlanets ca c.id) p.id then 0 else sc)) := rfl
    have hcons2 : charPlanetFold c ca sc (p :: rest) G.edges
        = charPlanetFold c ca sc rest
          (if c.banned.contains p.id then G.edges
           else addEdgeKey c.id p.id 1
             (if isExisting (priorPlanets ca c.id) p.id then 0 else sc) G.edges) := rfl
    rw [hcons, addCharEdges_edges c ca sc rest, hcons2]
    congr 1
    by_cases hb : p.id ∈ c.banned <;> by_cases hn : G.hasNode p.id <;>
      simp [hb, hn, Graph.addNode, Graph.addEdge]

lemma addCharStage_edges (ca : Assignments) (sc : Int) (pd : List Planet) :
    ∀ (characters : List Character) (G : Graph),
      (addCharStage characters pd ca sc G).edges = charStageFold characters pd ca sc G.edges
  | [], _ => rfl
  | c :: rest, G => by
    have hcons : addCharStage (c :: rest) pd ca sc G
        = addCharStage rest pd ca sc
          (addCharEdges c pd ca sc ((G.addNode c.id 1).addEdge "Source" c.id
            c.max_visits 0)) := rfl
    have hcons2 : charStageFold (c :: rest) pd ca sc G.edges
        = charStageFold rest pd ca sc
          (charPlanetFold c ca sc pd (addEdgeKey "Source" c.id c.max_visits 0 G.edges)) := rfl
    rw [hcons, addCharStage_edges ca sc pd rest, addCharEdges_edges, hcons2]
    rfl

lemma prResFold_edges (p : Planet) (resource_targets : Targets) (n : Nat) :
    ∀ (rs : List (String × Int)) (G : Graph),
      (rs.foldl (fun G rp =>
        if (dlookup rp.1 resource_targets).isSome then
          let pr := prNode p.id rp.1
          let G := G.addNode pr 3
          let G := G.addEdge p.id pr n (-rp.2)
          let G := if G.hasNode rp.1 then G else G.addNode rp.1 4
          G.addEdge pr rp.1 n 0
        else G) G).edges
      = rs.foldl (fun es rp =>
          if (dlookup rp.1 resource_targets).isSome then
            addEdgeKey (prNode p.id rp.1) rp.1 n 0
              (addEdgeKey p.id (prNode p.id rp.1) n (-rp.2) es)
          else es) G.edges
  | [], _ => rfl
  | rp :: rest, G => by
    simp only [List.foldl_cons]
    rw [prResFold_edges p resource_targets n rest]
    congr 1
    by_cases ht : (dlookup rp.1 resource_targets).isSome
    · simp only [ht, ite_true, if_true]
      rw [edges_addEdge_ite]
      rfl
    · simp [ht]

lemma addPRStage_edges (resource_targets : Targets) (n : Nat) :
    ∀ (pd : List Planet) (G : Graph),
      (addPRStage pd resource_targets n G).edges = prStageFold pd resource_targets n G.edges
  | [], _ => rfl
  | p :: rest, G => by
    have hcons : addPRStage (p :: rest) resource_targets n G
        = addPRStage rest resource_targets n
          (p.resources.foldl (fun G rp =>
            if (dlookup rp.1 resource_targets).isSome then
              let pr := prNode p.id rp.1
              let G := G.addNode pr 3
              let G := G.addEdge p.id pr n (-rp.2)
              let G := if G.hasNode rp.1 then G else G.addNode rp.1 4
              G.addEdge pr rp.1 n 0
            else G) G) := rfl
    have hcons2 : prStageFold (p :: rest) resource_targets n G.edges
        = prStageFold rest resource_targets n
          (p.resources.foldl (fun es rp =>
            if (dlookup rp.1 resource_targets).isSome then
              addEdgeKey (prNode p.id rp.1) rp.1 n 0
                (addEdgeKey p.id (prNode p.id rp.1) n (-rp.2) es)
            else es) G.edges) := rfl
    rw [hcons, addPRStage_edges resource_targets n rest, hcons2]
    congr 1
    exact prResFold_edges p resource_targets n p.resources G

lemma addSinkStage_edges :
    ∀ (l : Targets) (G : Graph), (addSinkStage l G).edges = sinkStageFold l G.edges
  | [], _ => rfl
  | rt :: rest, G => by
    have hcons : addSinkStage (rt :: rest) G
        = addSinkStage rest
          (let G2 := if G.hasNode rt.1 then G else G.addNode rt.1 4
           G2.addEdge rt.1 "Sink" rt.2 0) := rfl
    have hcons2 : sinkStageFold (rt :: rest) G.edges
        = sinkStageFold rest (addEdgeKey rt.1 "Sink" rt.2 0 G.edges) := rfl
    rw [hcons, addSinkStage_edges rest, hcons2]
    congr 1
    exact edges_addEdge_ite G rt.1 4 rt.1 "Sink" rt.2 0

/-- The edge list of the built network, stated as pure folds. -/
lemma buildGraph_edges (characters : List Character) (resource_targets : Targets)
    (pd : List Planet) (ca : Assignments) (sc : Int) :
    (buildGraph characters resource_targets pd ca sc).edges
      = sinkStageFold resource_targets
          (prStageFold pd resource_targets characters.length
            (charStageFold characters pd ca sc [])) := by
  unfold buildGraph
  rw [addSinkStage_edges, addPRStage_edges, addCharStage_edges]
  rfl

/- ----------------------------------------------------------------------
Distinct edge keys and the shape of every edge of the built network.
---------------------------------------------------------------------- -/

lemma keysNodup_charPlanetFold (c : Character) (ca : Assignments) (sc : Int)
    (pd : List Planet) (es : EdgeList) (h : keysNodup es) :
    keysNodup (charPlanetFold c ca sc pd es) := by
  unfold charPlanetFold
  refine foldl_preserve keysNodup _ pd es h ?_
  intro es2 p _ h2
  dsimp only
  split
  · exact h2
  · exact keysNodup_addEdgeKey _ _ _ _ _ h2

lemma keysNodup_charStageFold (characters : List Character) (pd : List Planet)
    (ca : Assignments) (sc : Int) (es : EdgeList) (h : keysNodup es) :
    keysNodup (charStageFold characters pd ca sc es) := by
  unfold charStageFold
  refine foldl_preserve keysNodup _ characters es h ?_
  intro es2 c _ h2
  exact keysNodup_charPlanetFold c ca sc pd _ (keysNodup_addEdgeKey _ _ _ _ _ h2)

lemma keysNodup_prStageFold (pd : List Planet) (resource_targets : Targets) (n : Nat)
    (es : EdgeList) (h : keysNodup es) :
    keysNodup (prStageFold pd resource_targets n es) := by
  unfold prStageFold
  refine foldl_preserve keysNodup _ pd es h ?_
  intro es2 p _ h2
  refine foldl_preserve keysNodup _ p.resources es2 h2 ?_
  intro es3 rp _ h3
  dsimp only
  split
  · exact keysNodup_addEdgeKey _ _ _ _ _ (keysNodup_addEdgeKey _ _ _ _ _ h3)
  · exact h3

lemma keysNodup_sinkStageFold (resource_targets : Targets) (es : EdgeList)
    (h : keysNodup es) : keysNodup (sinkStageFold resource_targets es) := by
  unfold sinkStageFold
  refine foldl_preserve keysNodup _ resource_targets es h ?_
  intro es2 rt _ h2
  exact keysNodup_addEdgeKey _ _ _ _ _ h2

/-- The built network stores at most one attribute record per directed edge. -/
lemma keysNodup_buildGraph (characters : List Character) (resource_targets : Targets)
    (pd : List Planet) (ca : Assignments) (sc : Int) :
    keysNodup (buildGraph characters resource_targets pd ca sc).edges := by
  rw [buildGraph_edges]
  exact keysNodup_sinkStageFold _ _ (keysNodup_prStageFold _ _ _ _
    (keysNodup_charStageFold _ _ _ _ _ keysNodup_nil))

/-- Shape of an edge of the built layered network: one of the five legal
layer-adjacent kinds of the specification data model. -/
def edgeShape (characters : List Character) (resource_targets : Targets)
    (planet_data : List Planet) (e : (String × String) × Nat × Int) : Prop :=
  (e.1.1 = "Source" ∧ ∃ c ∈ characters, e.1.2 = c.id) ∨
  (∃ c ∈ characters, ∃ p ∈ planet_data, e.1 = (c.id, p.id) ∧ e.2.1 = 1) ∨
  (∃ p ∈ planet_data, ∃ r, (dlookup r resource_targets).isSome ∧
    e.1 = (p.id, prNode p.id r)) ∨
  (∃ p ∈ planet_data, ∃ r, (dlookup r resource_targets).isSome ∧
    e.1 = (prNode p.id r, r)) ∨
  (∃ rt ∈ resource_targets, e.1 = (rt.1, "Sink") ∧ e.2.1 = rt.2)

lemma mem_charPlanetFold (c : Character) (ca : Assignments) (sc : Int) :
    ∀ (pd : List Planet) (es : EdgeList) (e), e ∈ charPlanetFold c ca sc pd es →
      (∃ p ∈ pd, e = ((c.id, p.id), 1,
        if isExisting (priorPlanets ca c.id) p.id then 0 else sc)) ∨ e ∈ es
  | [], _, e, h => Or.inr h
  | p :: rest, es, e, h => by
    rcases mem_charPlanetFold c ca sc rest _ e h with h1 | h1
    · obtain ⟨p2, hp2, he⟩ := h1
      exact Or.inl ⟨p2, by simp [hp2], he⟩
    · dsimp only at h1
      by_cases hb : c.banned.contains p.id
      · rw [if_pos hb] at h1
        exact Or.inr h1
      · rw [if_neg hb] at h1
        rcases mem_addEdgeKey es _ _ _ _ e h1 with h2 | h2
        · exact Or.inl ⟨p, by simp, h2⟩
        · exact Or.inr h2

lemma mem_charStageFold (pd : List Planet) (ca : Assignments) (sc : Int) :
    ∀ (characters : List Character) (es : EdgeList) (e),
      e ∈ charStageFold characters pd ca sc es →
      (∃ c ∈ characters, e = (("Source", c.id), c.max_visits, 0) ∨
        ∃ p ∈ pd, e = ((c.id, p.id), 1,
          if isExisting (priorPlanets ca c.id) p.id then 0 else sc)) ∨ e ∈ es
  | [], _, e, h => Or.inr h
  | c :: rest, es, e, h => by
    rcases mem_charStageFold pd ca sc rest _ e h with h1 | h1
    · obtain ⟨c2, hc2, he⟩ := h1
      exact Or.inl ⟨c2, by simp [hc2], he⟩
    · rcases mem_charPlanetFold c ca sc pd _ e h1 with h2 | h2
      · obtain ⟨p, hp, he⟩ := h2
        exact Or.inl ⟨c, by simp, Or.inr ⟨p, hp, he⟩⟩
      · rcases mem_addEdgeKey es _ _ _ _ e h2 with h3 | h3
        · exact Or.inl ⟨c, by simp, Or.inl h3⟩
        · exact Or.inr h3

lemma mem_prResFold (p : Planet) (resource_targets : Targets) (n : Nat) :
    ∀ (rs : List (String × Int)) (es : EdgeList) (e),
      e ∈ rs.foldl (fun es rp =>
        if (dlookup rp.1 resource_targets).isSome then
          addEdgeKey (prNode p.id rp.1) rp.1 n 0
            (addEdgeKey p.id (prNode p.id rp.1) n (-rp.2) es)
        else es) es →
      (∃ rp ∈ rs, (dlookup rp.1 resource_targets).isSome ∧
        (e = ((p.id, prNode p.id rp.1), n, -rp.2) ∨
         e = ((prNode p.id rp.1, rp.1), n, 0))) ∨ e ∈ es
  | [], _, e, h => Or.inr h
  | rp :: rest, es, e, h => by
    rcases mem_prResFold p resource_targets n rest _ e h with h1 | h1
    · obtain ⟨rp2, hrp2, he⟩ := h1
      exact Or.inl ⟨rp2, by simp [hrp2], he⟩
    · dsimp only at h1
      by_cases ht : (dlookup rp.1 resource_targets).isSome
      · rw [if_pos ht] at h1
        rcases mem_addEdgeKey _ _ _ _ _ e h1 with h2 | h2
        · exact Or.inl ⟨rp, by simp, ht, Or.inr h2⟩
        · rcases mem_addEdgeKey es _ _ _ _ e h2 with h3 | h3
          · exact Or.inl ⟨rp, by simp, ht, Or.inl h3⟩
          · exact Or.inr h3
      · rw [if_neg ht] at h1
        exact Or.inr h1

lemma mem_prStageFold (resource_targets : Targets) (n : Nat) :
    ∀ (pd : List Planet) (es : EdgeList) (e), e ∈ prStageFold pd resource_targets n es →
      (∃ p ∈ pd, ∃ rp : String × Int, (dlookup rp.1 resource_targets).isSome ∧
        (e = ((p.id, prNode p.id rp.1), n, -rp.2) ∨
         e = ((prNode p.id rp.1, rp.1), n, 0))) ∨ e ∈ es
  | [], _, e, h => Or.inr h
  | p :: rest, es, e, h => by
    rcases mem_prStageFold resource_targets n rest _ e h with h1 | h1
    · obtain ⟨p2, hp2, he⟩ := h1
      exact Or.inl ⟨p2, by simp [hp2], he⟩
    · rcases mem_prResFold p resource_targets n p.resources es e h1 with h2 | h2
      · obtain ⟨rp, _, ht, he⟩ := h2
        exact Or.inl ⟨p, by simp, rp, ht, he⟩
      · exact Or.inr h2

lemma mem_sinkStageFold :
    ∀ (l : Targets) (es : EdgeList) (e), e ∈ sinkStageFold l es →
      (∃ rt ∈ l, e = ((rt.1, "Sink"), rt.2, 0)) ∨ e ∈ es
  | [], _, e, h => Or.inr h
  | rt :: rest, es, e, h => by
    rcases mem_sinkStageFold rest _ e h with h1 | h1
    · obtain ⟨rt2, hrt2, he⟩ := h1
      exact Or.inl ⟨rt2, by simp [hrt2], he⟩
    · rcases mem_addEdgeKey es _ _ _ _ e h1 with h2 | h2
      · exact Or.inl ⟨rt, by simp, h2⟩
      · exact Or.inr h2

/-- Every edge of the built network has one of the five layer shapes. -/
lemma shape_buildGraph (characters : List Character) (resource_targets : Targets)
    (pd : List Planet) (ca : Assignments) (sc : Int) :
    ∀ e ∈ (buildGraph characters resource_targets pd ca sc).edges,
      edgeShape characters resource_targets pd e := by
  intro e he
  rw [buildGraph_edges] at he
  rcases mem_sinkStageFold resource_targets _ e he with h | h
  · obtain ⟨rt, hrt, he2⟩ := h
    exact Or.inr (Or.inr (Or.inr (Or.inr ⟨rt, hrt, by simp [he2]⟩)))
  rcases mem_prStageFold resource_targets characters.length pd _ e h with h2 | h2
  · obtain ⟨p, hp, rp, ht, he2⟩ := h2
    rcases he2 with he3 | he3
    · exact Or.inr (Or.inr (Or.inl ⟨p, hp, rp.1, ht, by simp [he3]⟩))
    · exact Or.inr (Or.inr (Or.inr (Or.inl ⟨p, hp, rp.1, ht, by simp [he3]⟩)))
  rcases mem_charStageFold pd ca sc characters _ e h2 with h3 | h3
  · obtain ⟨c, hc, he2⟩ := h3
    rcases he2 with he3 | he3
    · exact Or.inl (by simp [he3, Prod.ext_iff]; exact ⟨c, hc, rfl⟩)
    · obtain ⟨p, hp, he4⟩ := he3
      exact Or.inr (Or.inl ⟨c, hc, p, hp, by simp [he4]⟩)
  · simp at h3

/- ----------------------------------------------------------------------
Lookup characterisation of the built network edges.
---------------------------------------------------------------------- -/

lemma elookup_sinkStageFold_ne :
    ∀ (l : Targets) (es : EdgeList) (x y : String), (∀ rt ∈ l, rt.1 ≠ x) →
      elookup (sinkStageFold l es) x y = elookup es x y
  | [], _, _, _, _ => rfl
  | rt :: rest, es, x, y, h => by
    rw [show sinkStageFold (rt :: rest) es
        = sinkStageFold rest (addEdgeKey rt.1 "Sink" rt.2 0 es) from rfl]
    rw [elookup_sinkStageFold_ne rest _ x y (fun rt2 hrt2 => h rt2 (by simp [hrt2]))]
    rw [elookup_addEdgeKey]
    have hne : ¬ (((rt.1, "Sink") : String × String) = (x, y)) := by
      intro hc
      exact h rt (by simp) (Prod.mk.injEq .. ▸ hc).1
    simp [hne]

lemma elookup_sinkStageFold_self :
    ∀ (l : Targets) (es : EdgeList) (rt : String × Nat),
      (l.map Prod.fst).Nodup → rt ∈ l →
      elookup (sinkStageFold l es) rt.1 "Sink" = some (rt.2, 0)
  | [], _, rt, _, hrt => absurd hrt (by simp)
  | rt2 :: rest, es, rt, hnd, hrt => by
    rcases List.mem_cons.mp hrt with h1 | h1
    · subst h1
      rw [show sinkStageFold (rt :: rest) es
          = sinkStageFold rest (addEdgeKey rt.1 "Sink" rt.2 0 es) from rfl]
      have hnotin : rt.1 ∉ rest.map Prod.fst := (List.nodup_cons.mp hnd).1
      rw [elookup_sinkStageFold_ne rest _ rt.1 "Sink" ?hne, elookup_addEdgeKey]
      · simp
      · intro rt3 hrt3 hc
        exact hnotin (hc ▸ List.mem_map_of_mem Prod.fst hrt3)
    · exact elookup_sinkStageFold_self rest _ rt (List.nodup_cons.mp hnd).2 h1

lemma elookup_prResFold_ne (p : Planet) (resource_targets : Targets) (n : Nat) :
    ∀ (rs : List (String × Int)) (es : EdgeList) (x y : String),
      p.id ≠ x → (∀ rp : String × Int, prNode p.id rp.1 ≠ x) →
      elookup (rs.foldl (fun es rp =>
        if (dlookup rp.1 resource_targets).isSome then
          addEdgeKey (prNode p.id rp.1) rp.1 n 0
            (addEdgeKey p.id (prNode p.id rp.1) n (-rp.2) es)
        else es) es) x y = elookup es x y
  | [], _, _, _, _, _ => rfl
  | rp :: rest, es, x, y, hp, hpr => by
    rw [show (rp :: rest).foldl _ es = rest.foldl _ _ from List.foldl_cons .. ]
    rw [elookup_prResFold_ne p resource_targets n rest _ x y hp hpr]
    split
    · rw [elookup_addEdgeKey, elookup_addEdgeKey]
      have h1 : ¬ (((prNode p.id rp.1, rp.1) : String × String) = (x, y)) := by
        intro hc
        exact hpr rp (Prod.mk.injEq .. ▸ hc).1
      have h2 : ¬ (((p.id, prNode p.id rp.1) : String × String) = (x, y)) := by
        intro hc
        exact hp (Prod.mk.injEq .. ▸ hc).1
      simp [h1, h2]
    · rfl

lemma elookup_prStageFold_ne (resource_targets : Targets) (n : Nat) :
    ∀ (pd : List Planet) (es : EdgeList) (x y : String),
      (∀ p ∈ pd, p.id ≠ x ∧ ∀ r : String, prNode p.id r ≠ x) →
      elookup (prStageFold pd resource_targets n es) x y = elookup es x y
  | [], _, _, _, _ => rfl
  | p :: rest, es, x, y, h => by
    rw [show prStageFold (p :: rest) resource_targets n es
        = prStageFold rest resource_targets n _ from rfl]
    rw [elookup_prStageFold_ne resource_targets n rest _ x y
      (fun p2 hp2 => h p2 (by simp [hp2]))]
    exact elookup_prResFold_ne p resource_targets n p.resources es x y
      (h p (by simp)).1 (fun rp => (h p (by simp)).2 rp.1)

lemma elookup_charPlanetFold_nowrite (c : Character) (ca : Assignments) (sc : Int) :
    ∀ (pd : List Planet) (es : EdgeList) (x y : String),
      (∀ q ∈ pd, q.id ∉ c.banned → ¬ (((c.id, q.id) : String × String) = (x, y))) →
      elookup (charPlanetFold c ca sc pd es) x y = elookup es x y
  | [], _, _, _, _ => rfl
  | q :: rest, es, x, y, h => by
    rw [show charPlanetFold c ca sc (q :: rest) es = charPlanetFold c ca sc rest _ from rfl]
    rw [elookup_charPlanetFold_nowrite c ca sc rest _ x y
      (fun q2 hq2 => h q2 (by simp [hq2]))]
    dsimp only
    by_cases hb : q.id ∈ c.banned
    · rw [if_pos (by simpa using hb)]
    · rw [if_neg (by simpa using hb), elookup_addEdgeKey]
      simp [h q (by simp) hb]

lemma elookup_charPlanetFold_self (c : Character) (ca : Assignments) (sc : Int) :
    ∀ (pd : List Planet) (es : EdgeList) (p : Planet),
      (pd.map Planet.id).Nodup → p ∈ pd → p.id ∉ c.banned →
      elookup (charPlanetFold c ca sc pd es) c.id p.id
        = some (1, if isExisting (priorPlanets ca c.id) p.id then 0 else sc)
  | [], _, p, _, hp, _ => absurd hp (by simp)
  | q :: rest, es, p, hnd, hp, hnb => by
    rcases List.mem_cons.mp hp with h1 | h1
    · subst h1
      have hstep : charPlanetFold c ca sc (p :: rest) es
          = charPlanetFold c ca sc rest (addEdgeKey c.id p.id 1
              (if isExisting (priorPlanets ca c.id) p.id then 0 else sc) es) := by
        show charPlanetFold c ca sc rest
          (if c.banned.contains p.id then es else _) = _
        rw [if_neg (by simpa using hnb)]
      have hnotin : p.id ∉ rest.map Planet.id := (List.nodup_cons.mp hnd).1
      rw [hstep, elookup_charPlanetFold_nowrite c ca sc rest _ c.id p.id ?hne,
        elookup_addEdgeKey]
      · simp
      · intro q2 hq2 _ hc
        exact hnotin ((Prod.mk.injEq .. ▸ hc).2 ▸ List.mem_map_of_mem Planet.id hq2)
    · rw [show charPlanetFold c ca sc (q :: rest) es = charPlanetFold c ca sc rest _ from rfl]
      exact elookup_charPlanetFold_self c ca sc rest _ p (List.nodup_cons.mp hnd).2 h1 hnb

lemma elookup_charStageFold_nowrite (pd : List Planet) (ca : Assignments) (sc : Int) :
    ∀ (characters : List Character) (es : EdgeList) (x y : String),
      (∀ c2 ∈ characters, ¬ ((("Source", c2.id) : String × String) = (x, y)) ∧
        ∀ q ∈ pd, q.id ∉ c2.banned → ¬ (((c2.id, q.id) : String × String) = (x, y))) →
      elookup (charStageFold characters pd ca sc es) x y = elookup es x y
  | [], _, _, _, _ => rfl
  | c2 :: rest, es, x, y, h => by
    rw [show charStageFold (c2 :: rest) pd ca sc es = charStageFold rest pd ca sc _ from rfl]
    rw [elookup_charStageFold_nowrite pd ca sc rest _ x y
      (fun c3 hc3 => h c3 (by simp [hc3]))]
    rw [elookup_charPlanetFold_nowrite c2 ca sc pd _ x y (h c2 (by simp)).2,
      elookup_addEdgeKey]
    simp [(h c2 (by simp)).1]

lemma elookup_charStageFold_agent (pd : List Planet) (ca : Assignments) (sc : Int) :
    ∀ (characters : List Character) (es : EdgeList) (c : Character) (p : Planet),
      (characters.map Character.id).Nodup → (pd.map Planet.id).Nodup →
      c ∈ characters → p ∈ pd → p.id ∉ c.banned → c.id ≠ "Source" →
      elookup (charStageFold characters pd ca sc es) c.id p.id
        = some (1, if isExisting (priorPlanets ca c.id) p.id then 0 else sc)
  | [], _, c, p, _, _, hc, _, _, _ => absurd hc (by simp)
  | c2 :: rest, es, c, p, hndc, hndp, hc, hp, hnb, hcs => by
    rcases List.mem_cons.mp hc with h1 | h1
    · subst h1
      rw [show charStageFold (c :: rest) pd ca sc es = charStageFold rest pd ca sc _ from rfl]
      have hnotin : c.id ∉ rest.map Character.id := (List.nodup_cons.mp hndc).1
      rw [elookup_charStageFold_nowrite pd ca sc rest _ c.id p.id ?hne]
      · exact elookup_charPlanetFold_self c ca sc pd _ p hndp hp hnb
      · intro c3 hc3
        constructor
        · intro hcX
          exact hcs ((Prod.mk.injEq .. ▸ hcX).1).symm
        · intro q _ _ hcX
          exact hnotin ((Prod.mk.injEq .. ▸ hcX).1 ▸ List.mem_map_of_mem Character.id hc3)
    · rw [show charStageFold (c2 :: rest) pd ca sc es = charStageFold rest pd ca sc _ from rfl]
      exact elookup_charStageFold_agent pd ca sc rest _ c p (List.nodup_cons.mp hndc).2
        hndp h1 hp hnb hcs

/-- Lookup of an Agent to Location edge in the built network: present with
capacity 1 exactly when the location is not banned for the agent, with cost 0
when the pair appears in the prior assignment and the switching cost
otherwise (src/main.py lines 27-53). -/
lemma elookup_buildGraph_agent (characters : List Character) (resource_targets : Targets)
    (pd : List Planet) (ca : Assignments) (sc : Int)
    (V : ValidInput characters resource_targets pd)
    (c : Character) (p : Planet) (hc : c ∈ characters) (hp : p ∈ pd) :
    elookup (buildGraph characters resource_targets pd ca sc).edges c.id p.id
      = if p.id ∈ c.banned then none
        else some (1, if isExisting (priorPlanets ca c.id) p.id then 0 else sc) := by
  rw [buildGraph_edges]
  rw [elookup_sinkStageFold_ne resource_targets _ c.id p.id
    (fun rt hrt => (V.chars_targets c hc rt hrt).symm)]
  rw [elookup_prStageFold_ne resource_targets characters.length pd _ c.id p.id ?hpr]
  case hpr =>
    intro p2 hp2
    exact ⟨(V.chars_planets c hc p2 hp2).symm,
      fun r => (barFree_ne_prNode c.id p2.id r (V.chars_bar c hc)).symm⟩
  by_cases hb : p.id ∈ c.banned
  · rw [if_pos hb]
    rw [elookup_charStageFold_nowrite pd ca sc characters _ c.id p.id ?hcw]
    · rfl
    case hcw =>
      intro c2 hc2
      constructor
      · intro hcX
        exact (V.chars_not_sp c hc).1 ((Prod.mk.injEq .. ▸ hcX).1).symm
      · intro q hq hqb hcX
        have h1 : c2.id = c.id := (Prod.mk.injEq .. ▸ hcX).1
        have h2 : q.id = p.id := (Prod.mk.injEq .. ▸ hcX).2
        have hc2c : c2 = c :=
          List.inj_on_of_nodup_map V.chars_nodup hc2 hc h1
        exact hqb (h2 ▸ (hc2c ▸ hb))
  · rw [if_neg hb]
    exact elookup_charStageFold_agent pd ca sc characters _ c p V.chars_nodup
      V.planets_nodup hc hp hb (V.chars_not_sp c hc).1

/-- Lookup of the Resource to Sink edge: capacity is the demand target
(src/main.py lines 75-80). -/
lemma elookup_buildGraph_sink (characters : List Character) (resource_targets : Targets)
    (pd : List Planet) (ca : Assignments) (sc : Int)
    (V : ValidInput characters resource_targets pd)
    (rt : String × Nat) (hrt : rt ∈ resource_targets) :
    elookup (buildGraph characters resource_targets pd ca sc).edges rt.1 "Sink"
      = some (rt.2, 0) := by
  rw [buildGraph_edges]
  exact elookup_sinkStageFold_self resource_targets _ rt V.targets_nodup hrt

/- ----------------------------------------------------------------------
Flow sums at specific kinds of node.
---------------------------------------------------------------------- -/

lemma outflowAux_zero (es : EdgeList) (f : FlowMap) (n : String)
    (h : ∀ e ∈ es, ¬ (e.1.1 = n)) : outflowAux es f n = 0 := by
  induction es with
  | nil => rfl
  | cons e rest ih =>
    obtain ⟨⟨u, v⟩, cw⟩ := e
    have h1 : ¬ (u = n) := h ((u, v), cw) (by simp)
    simp only [outflowAux, if_neg h1]
    rw [ih (fun e2 he2 => h e2 (by simp [he2]))]

lemma outflowAux_single (es : EdgeList) (f : FlowMap) (n v : String)
    (hnd : keysNodup es) (h : ∀ e ∈ es, e.1.1 = n → e.1.2 = v) :
    outflowAux es f n ≤ flookup f n v := by
  induction es with
  | nil => exact Nat.zero_le _
  | cons e rest ih =>
    obtain ⟨⟨a, b⟩, cw⟩ := e
    by_cases ha : a = n
    · have hb : b = v := h ((a, b), cw) (by simp) ha
      subst ha
      subst hb
      have hnotin : ((a, b) : String × String) ∉ edgeKeys rest :=
        by simpa using (keysNodup_cons.mp hnd).1
      have hrest : outflowAux rest f a = 0 := by
        apply outflowAux_zero
        intro e2 he2 hfst
        have hsnd : e2.1.2 = b := h e2 (by simp [he2]) hfst
        apply hnotin
        have : e2.1 = (a, b) := by
          rw [← hfst, ← hsnd]
        exact this ▸ List.mem_map_of_mem Prod.fst he2
      simp only [outflowAux, if_pos rfl, hrest]
      simp
    · simp only [outflowAux, if_neg ha]
      have := ih (keysNodup_cons.mp hnd).2 (fun e2 he2 => h e2 (by simp [he2]))
      omega

lemma inflowAux_filter_sum (es : EdgeList) (f : FlowMap) (n : String) :
    inflowAux es f n
      = ((es.filter (fun e => e.1.2 == n)).map (fun e => flookup f e.1.1 e.1.2)).sum := by
  induction es with
  | nil => rfl
  | cons e rest ih =>
    obtain ⟨⟨u, v⟩, cw⟩ := e
    by_cases hv : v = n <;> simp [inflowAux, List.filter_cons, hv, ih]

lemma outflowAux_filter_sum (es : EdgeList) (f : FlowMap) (n : String) :
    outflowAux es f n
      = ((es.filter (fun e => e.1.1 == n)).map (fun e => flookup f e.1.1 e.1.2)).sum := by
  induction es with
  | nil => rfl
  | cons e rest ih =>
    obtain ⟨⟨u, v⟩, cw⟩ := e
    by_cases hu : u = n <;> simp [outflowAux, List.filter_cons, hu, ih]

lemma sum_eq_length_filter_of_le_one (l : List Nat) (h : ∀ x ∈ l, x ≤ 1) :
    l.sum = (l.filter (fun x => decide (0 < x))).length := by
  induction l with
  | nil => rfl
  | cons x rest ih =>
    have hx : x ≤ 1 := h x (by simp)
    have hr := ih (fun y hy => h y (by simp [hy]))
    match x, hx with
    | 0, _ => simpa using hr
    | 1, _ =>
      have hfil : List.filter (fun x => decide (0 < x)) ((1 : Nat) :: rest)
          = 1 :: List.filter (fun x => decide (0 < x)) rest := by simp
      simp only [List.sum_cons, hfil, List.length_cons, hr]
      omega

/- ----------------------------------------------------------------------
Shape corollaries at planet and resource nodes under a valid input.
---------------------------------------------------------------------- -/

lemma dlookup_mem {α : Type} (m : List (String × α)) (k : String) (v : α)
    (h : dlookup k m = some v) : (k, v) ∈ m := by
  induction m with
  | nil => simp [dlookup] at h
  | cons e rest ih =>
    obtain ⟨k2, v2⟩ := e
    by_cases hk : k2 = k
    · subst hk
      simp [dlookup] at h
      simp [h]
    · simp only [dlookup, if_neg hk] at h
      simp [ih h]

lemma dlookup_some_of_isSome {α : Type} (m : List (String × α)) (k : String)
    (h : (dlookup k m).isSome) : ∃ v, dlookup k m = some v :=
  Option.isSome_iff_exists.mp h

lemma resource_out_shape (characters : List Character) (resource_targets : Targets)
    (pd : List Planet) (ca : Assignments) (sc : Int)
    (V : ValidInput characters resource_targets pd)
    (rt : String × Nat) (hrt : rt ∈ resource_targets) :
    ∀ e ∈ (buildGraph characters resource_targets pd ca sc).edges,
      e.1.1 = rt.1 → e.1.2 = "Sink" := by
  intro e he hfst
  rcases shape_buildGraph characters resource_targets pd ca sc e he with
    h | h | h | h | h
  · exact absurd (hfst.symm.trans h.1) (V.targets_not_sp rt hrt).1
  · obtain ⟨c, hc, p, hp, he1, _⟩ := h
    have h2 : e.1.1 = c.id := (Prod.mk.injEq .. ▸ he1).1
    exact absurd (h2.symm.trans hfst) (V.chars_targets c hc rt hrt)
  · obtain ⟨p, hp, r, _, he1⟩ := h
    have h2 : e.1.1 = p.id := (Prod.mk.injEq .. ▸ he1).1
    exact absurd (h2.symm.trans hfst) (V.planets_targets p hp rt hrt)
  · obtain ⟨p, hp, r, _, he1⟩ := h
    have h2 : e.1.1 = prNode p.id r := (Prod.mk.injEq .. ▸ he1).1
    exact absurd (hfst.symm.trans h2) (barFree_ne_prNode rt.1 p.id r (V.targets_bar rt hrt))
  · obtain ⟨rt2, _, he1, _⟩ := h
    exact (Prod.mk.injEq .. ▸ he1).2

lemma planet_in_shape (characters : List Character) (resource_targets : Targets)
    (pd : List Planet) (ca : Assignments) (sc : Int)
    (V : ValidInput characters resource_targets pd)
    (p : Planet) (hp : p ∈ pd) :
    ∀ e ∈ (buildGraph characters resource_targets pd ca sc).edges,
      e.1.2 = p.id → (∃ c ∈ characters, e.1.1 = c.id) ∧ e.2.1 = 1 := by
  intro e he hsnd
  rcases shape_buildGraph characters resource_targets pd ca sc e he with
    h | h | h | h | h
  · obtain ⟨_, c, hc, he2⟩ := h
    exact absurd (he2.symm.trans hsnd) (V.chars_planets c hc p hp)
  · obtain ⟨c, hc, p2, hp2, he1, hcap⟩ := h
    exact ⟨⟨c, hc, (Prod.mk.injEq .. ▸ he1).1⟩, hcap⟩
  · obtain ⟨p2, hp2, r, _, he1⟩ := h
    have h2 : e.1.2 = prNode p2.id r := (Prod.mk.injEq .. ▸ he1).2
    exact absurd (hsnd.symm.trans h2) (barFree_ne_prNode p.id p2.id r (V.planets_bar p hp))
  · obtain ⟨p2, hp2, r, hr, he1⟩ := h
    have h2 : e.1.2 = r := (Prod.mk.injEq .. ▸ he1).2
    obtain ⟨t, ht⟩ := dlookup_some_of_isSome resource_targets r hr
    have hmem : (r, t) ∈ resource_targets := dlookup_mem resource_targets r t ht
    exact absurd (hsnd.symm.trans h2) (V.planets_targets p hp (r, t) hmem)
  · obtain ⟨rt, hrt, he1, _⟩ := h
    have h2 : e.1.2 = "Sink" := (Prod.mk.injEq .. ▸ he1).2
    exact absurd (hsnd.symm.trans h2) (V.planets_not_sp p hp).2

lemma planet_out_shape (characters : List Character) (resource_targets : Targets)
    (pd : List Planet) (ca : Assignments) (sc : Int)
    (V : ValidInput characters resource_targets pd)
    (p : Planet) (hp : p ∈ pd) :
    ∀ e ∈ (buildGraph characters resource_targets pd ca sc).edges,
      e.1.1 = p.id → ∃ r, (dlookup r resource_targets).isSome ∧ e.1.2 = prNode p.id r := by
  intro e he hfst
  rcases shape_buildGraph characters resource_targets pd ca sc e he with
    h | h | h | h | h
  · exact absurd (hfst.symm.trans h.1) (V.planets_not_sp p hp).1
  · obtain ⟨c, hc, p2, hp2, he1, _⟩ := h
    have h2 : e.1.1 = c.id := (Prod.mk.injEq .. ▸ he1).1
    exact absurd (h2.symm.trans hfst) (V.chars_planets c hc p hp)
  · obtain ⟨p2, hp2, r, hr, he1⟩ := h
    have h1 : e.1.1 = p2.id := (Prod.mk.injEq .. ▸ he1).1
    have h2 : e.1.2 = prNode p2.id r := (Prod.mk.injEq .. ▸ he1).2
    refine ⟨r, hr, ?_⟩
    rw [h2, ← h1, hfst]
  · obtain ⟨p2, hp2, r, _, he1⟩ := h
    have h2 : e.1.1 = prNode p2.id r := (Prod.mk.injEq .. ▸ he1).1
    exact absurd (hfst.symm.trans h2) (barFree_ne_prNode p.id p2.id r (V.planets_bar p hp))
  · obtain ⟨rt, hrt, he1, _⟩ := h
    have h2 : e.1.1 = rt.1 := (Prod.mk.injEq .. ▸ he1).1
    exact absurd (hfst.symm.trans h2) (V.planets_targets p hp rt hrt)

/-- Demand ceiling at a resource node: any capacity-respecting conserved flow
on the built network sends at most the target quantity into the resource. -/
lemma inflow_resource_le_target (characters : List Character) (resource_targets : Targets)
    (pd : List Planet) (ca : Assignments) (sc : Int)
    (V : ValidInput characters resource_targets pd) (f : FlowMap)
    (hcap : capRespects (buildGraph characters resource_targets pd ca sc).edges f)
    (hcons : flowConserved (buildGraph characters resource_targets pd ca sc).edges f)
    (rt : String × Nat) (hrt : rt ∈ resource_targets) :
    inflowAux (buildGraph characters resource_targets pd ca sc).edges f rt.1 ≤ rt.2 := by
  have hnd := keysNodup_buildGraph characters resource_targets pd ca sc
  have h1 := hcons rt.1 (V.targets_not_sp rt hrt).1 (V.targets_not_sp rt hrt).2
  unfold conservedAt at h1
  have h2 := outflowAux_single (buildGraph characters resource_targets pd ca sc).edges
    f rt.1 "Sink" hnd (resource_out_shape characters resource_targets pd ca sc V rt hrt)
  have hel := elookup_buildGraph_sink characters resource_targets pd ca sc V rt hrt
  have hmem := elookup_some_mem _ _ _ _ hel
  have h3 := hcap _ hmem
  simp only at h3
  omega

lemma nodup_fst_of_const_snd (l : EdgeList) (v : String)
    (hnd : (l.map Prod.fst).Nodup) (h : ∀ e ∈ l, e.1.2 = v) :
    (l.map (fun e => e.1.1)).Nodup := by
  induction l with
  | nil => simp
  | cons e rest ih =>
    simp only [List.map_cons, List.nodup_cons] at hnd ⊢
    constructor
    · intro hmem
      obtain ⟨e2, he2, hfst⟩ := List.mem_map.mp hmem
      apply hnd.1
      have hkey : e2.1 = e.1 := by
        have hs2 : e2.1.2 = v := h e2 (by simp [he2])
        have hs1 : e.1.2 = v := h e (by simp)
        have : e2.1 = (e2.1.1, e2.1.2) := by rw [Prod.mk.eta]
        rw [Prod.ext_iff]
        exact ⟨hfst, hs2.trans hs1.symm⟩
      exact hkey ▸ List.mem_map_of_mem Prod.fst he2
    · exact ih hnd.2 (fun e2 he2 => h e2 (by simp [he2]))

lemma sum_flookup_eq_count (f : FlowMap) (l : EdgeList)
    (h : ∀ e ∈ l, flookup f e.1.1 e.1.2 ≤ 1) :
    (l.map (fun e => flookup f e.1.1 e.1.2)).sum
      = (l.filter (fun e => decide (0 < flookup f e.1.1 e.1.2))).length := by
  induction l with
  | nil => rfl
  | cons e rest ih =>
    have he := h e (by simp)
    have hr := ih (fun e2 he2 => h e2 (by simp [he2]))
    simp only [List.map_cons, List.sum_cons, List.filter_cons]
    rcases Nat.le_one_iff_eq_zero_or_eq_one.mp he with h0 | h1
    · simp [h0, hr]
    · simp [h1, hr, Nat.add_comm]

/-- The number of visitors at a planet equals the total flow into its node,
for any capacity-respecting flow supported on the built network edges. -/
lemma visitorsAt_length_eq_inflow (characters : List Character)
    (resource_targets : Targets) (pd : List Planet) (ca : Assignments) (sc : Int)
    (V : ValidInput characters resource_targets pd) (p : Planet) (hp : p ∈ pd)
    (f : FlowMap)
    (hcap : capRespects (buildGraph characters resource_targets pd ca sc).edges f)
    (hfe : flowOnEdges (buildGraph characters resource_targets pd ca sc).edges f) :
    (visitorsAt characters f p.id).length
      = inflowAux (buildGraph characters resource_targets pd ca sc).edges f p.id := by
  set es := (buildGraph characters resource_targets pd ca sc).edges with hes
  have hnd : keysNodup es := by
    rw [hes]
    exact keysNodup_buildGraph characters resource_targets pd ca sc
  set S := es.filter (fun e => e.1.2 == p.id) with hS
  have hSsub : List.Sublist S es := by
    rw [hS]
    exact List.filter_sublist es
  have hSmem : ∀ e ∈ S, e ∈ es ∧ e.1.2 = p.id := by
    intro e he
    rw [hS] at he
    have := List.mem_filter.mp he
    exact ⟨this.1, by simpa using this.2⟩
  have hle : ∀ e ∈ S, flookup f e.1.1 e.1.2 ≤ 1 := by
    intro e he
    obtain ⟨hees, hsnd⟩ := hSmem e he
    have hcap1 := (planet_in_shape characters resource_targets pd ca sc V p hp e
      hees hsnd).2
    have := hcap e hees
    omega
  set B := (S.filter (fun e => decide (0 < flookup f e.1.1 e.1.2))).map (fun e => e.1.1)
    with hB
  have hAnodup : (visitorsAt characters f p.id).Nodup := by
    have hsub : List.Sublist (visitorsAt characters f p.id) (characters.map Character.id) :=
      List.Sublist.map Character.id (List.filter_sublist characters)
    exact List.Nodup.sublist hsub V.chars_nodup
  have hBnodup : B.Nodup := by
    have hsub : List.Sublist (S.filter (fun e => decide (0 < flookup f e.1.1 e.1.2))) es :=
      (List.filter_sublist S).trans hSsub
    have hkeys : ((S.filter (fun e => decide (0 < flookup f e.1.1 e.1.2))).map
        Prod.fst).Nodup :=
      List.Nodup.sublist (List.Sublist.map Prod.fst hsub) hnd
    exact nodup_fst_of_const_snd _ p.id hkeys
      (fun e he => (hSmem e (List.mem_of_mem_filter he)).2)
  have hmem_iff : ∀ x, x ∈ visitorsAt characters f p.id ↔ x ∈ B := by
    intro x
    constructor
    · intro hx
      obtain ⟨c, hcf, hcx⟩ := List.mem_map.mp hx
      have hc := List.mem_filter.mp hcf
      have hpos : 0 < flookup f c.id p.id := by simpa using hc.2
      have helne : ¬ (elookup es c.id p.id = none) := by
        intro hnone
        rw [hfe c.id p.id hnone] at hpos
        exact absurd hpos (by simp)
      obtain ⟨cw, hcw⟩ := Option.ne_none_iff_exists'.mp helne
      have hmeme : ((c.id, p.id), cw) ∈ es := elookup_some_mem es c.id p.id cw hcw
      rw [hB]
      apply List.mem_map.mpr
      refine ⟨((c.id, p.id), cw), ?_, hcx⟩
      apply List.mem_filter.mpr
      constructor
      · rw [hS]
        apply List.mem_filter.mpr
        exact ⟨hmeme, by simp⟩
      · simpa using hpos
    · intro hx
      rw [hB] at hx
      obtain ⟨e, hef, hex⟩ := List.mem_map.mp hx
      have he2 := List.mem_filter.mp hef
      obtain ⟨hees, hsnd⟩ := hSmem e he2.1
      have hpos : 0 < flookup f e.1.1 e.1.2 := by simpa using he2.2
      obtain ⟨⟨c, hc, hcid⟩, _⟩ := planet_in_shape characters resource_targets pd ca sc
        V p hp e hees hsnd
      apply List.mem_map.mpr
      refine ⟨c, ?_, hcid.symm.trans hex⟩
      apply List.mem_filter.mpr
      refine ⟨hc, ?_⟩
      simp only [decide_eq_true_eq]
      rw [← hcid, ← hsnd]
      exact hpos
  have hperm : List.Perm (visitorsAt characters f p.id) B :=
    (List.perm_ext_iff_of_nodup hAnodup hBnodup).mpr hmem_iff
  rw [hperm.length_eq, hB, List.length_map, inflowAux_filter_sum es f p.id, ← hS,
    sum_flookup_eq_count f S hle]

/- ----------------------------------------------------------------------
Item list facts at a planet.
---------------------------------------------------------------------- -/

/-- Sum of abundances of a list of resource entries at one planet, looked up
in the planet resource dict exactly as the code does. -/
def sumY (p : Planet) (l : List String) : Int :=
  (l.map (fun r => (dlookup r p.resources).getD 0)).sum

lemma sumY_append (p : Planet) (l1 l2 : List String) :
    sumY p (l1 ++ l2) = sumY p l1 + sumY p l2 := by
  simp [sumY]

lemma sumY_replicate (p : Planet) (n : Nat) (r : String) :
    sumY p (List.replicate n r) = n * (dlookup r p.resources).getD 0 := by
  simp [sumY, List.map_replicate, List.sum_replicate, nsmul_eq_mul]

lemma itemsFold_spec (p : Planet) (f : FlowMap) :
    ∀ (L : EdgeList) (acc : List String × Int),
      (∀ e ∈ L, containsBar e.1.2 = true) →
      ∃ extra : List String,
        (L.foldl (itemStep p f) acc).1 = acc.1 ++ extra ∧
        (L.foldl (itemStep p f) acc).2 = acc.2 + sumY p extra ∧
        extra.length = (L.map (fun e => flookup f e.1.1 e.1.2)).sum ∧
        (∀ r ∈ extra, ∃ e ∈ L, r = resName e.1.2 ∧ 0 < flookup f e.1.1 e.1.2)
  | [], acc, _ => ⟨[], by simp, by simp [sumY], by simp, by simp⟩
  | e :: rest, acc, h => by
    have hbar := h e (by simp)
    by_cases hamt : 0 < flookup f e.1.1 e.1.2
    · have hstep : itemStep p f acc e
          = (acc.1 ++ List.replicate (flookup f e.1.1 e.1.2) (resName e.1.2),
             acc.2 + (flookup f e.1.1 e.1.2 : Int)
               * (dlookup (resName e.1.2) p.resources).getD 0) := by
        unfold itemStep
        rw [if_pos ⟨hamt, hbar⟩]
      obtain ⟨extra, h1, h2, h3, h4⟩ := itemsFold_spec p f rest (itemStep p f acc e)
        (fun e2 he2 => h e2 (by simp [he2]))
      refine ⟨List.replicate (flookup f e.1.1 e.1.2) (resName e.1.2) ++ extra,
        ?_, ?_, ?_, ?_⟩
      · rw [List.foldl_cons, h1, hstep]
        simp [List.append_assoc]
      · rw [List.foldl_cons, h2, hstep]
        simp only
        rw [sumY_append, sumY_replicate]
        ring
      · rw [List.length_append, List.length_replicate, h3]
        simp
      · intro r hr
        rcases List.mem_append.mp hr with h5 | h5
        · exact ⟨e, by simp, List.eq_of_mem_replicate h5, hamt⟩
        · obtain ⟨e2, he2, hre⟩ := h4 r h5
          exact ⟨e2, by simp [he2], hre⟩
    · have hstep : itemStep p f acc e = acc := by
        unfold itemStep
        rw [if_neg (by tauto)]
      obtain ⟨extra, h1, h2, h3, h4⟩ := itemsFold_spec p f rest acc
        (fun e2 he2 => h e2 (by simp [he2]))
      rw [List.foldl_cons, hstep]
      refine ⟨extra, h1, h2, ?_, ?_⟩
      · rw [h3]
        have h0 : flookup f e.1.1 e.1.2 = 0 := by omega
        simp [h0]
      · intro r hr
        obtain ⟨e2, he2, hre⟩ := h4 r hr
        exact ⟨e2, by simp [he2], hre⟩

/-- Facts about the item expansion at a planet on the built network: its
length is the planet outflow, its abundance total is the sum of the looked-up
abundances of its entries, and every entry is a demanded resource name. -/
lemma itemsAt_spec (characters : List Character) (resource_targets : Targets)
    (pd : List Planet) (ca : Assignments) (sc : Int)
    (V : ValidInput characters resource_targets pd) (p : Planet) (hp : p ∈ pd)
    (f : FlowMap) :
    (itemsAt (buildGraph characters resource_targets pd ca sc).edges p f).1.length
        = outflowAux (buildGraph characters resource_targets pd ca sc).edges f p.id ∧
    (itemsAt (buildGraph characters resource_targets pd ca sc).edges p f).2
        = sumY p (itemsAt (buildGraph characters resource_targets pd ca sc).edges p f).1 ∧
    ∀ r ∈ (itemsAt (buildGraph characters resource_targets pd ca sc).edges p f).1,
      ∃ rt ∈ resource_targets, r = rt.1 := by
  set es := (buildGraph characters resource_targets pd ca sc).edges with hes
  set L := es.filter (fun e => e.1.1 == p.id) with hL
  have hLmem : ∀ e ∈ L, e ∈ es ∧ e.1.1 = p.id := by
    intro e he
    rw [hL] at he
    have := List.mem_filter.mp he
    exact ⟨this.1, by simpa using this.2⟩
  have hLshape : ∀ e ∈ L, ∃ r, (dlookup r resource_targets).isSome ∧
      e.1.2 = prNode p.id r := by
    intro e he
    obtain ⟨hees, hfst⟩ := hLmem e he
    exact planet_out_shape characters resource_targets pd ca sc V p hp e hees hfst
  have hbar : ∀ e ∈ L, containsBar e.1.2 = true := by
    intro e he
    obtain ⟨r, _, hsnd⟩ := hLshape e he
    rw [hsnd]
    exact containsBar_prNode p.id r
  obtain ⟨extra, h1, h2, h3, h4⟩ := itemsFold_spec p f L ([], 0) hbar
  have hitems : (itemsAt es p f).1 = extra := by
    unfold itemsAt
    rw [← hL, h1]
    simp
  have htot : (itemsAt es p f).2 = sumY p extra := by
    unfold itemsAt
    rw [← hL, h2]
    simp
  refine ⟨?_, ?_, ?_⟩
  · rw [hitems, h3, outflowAux_filter_sum es f p.id, ← hL]
  · rw [htot, hitems]
  · intro r hr
    rw [hitems] at hr
    obtain ⟨e, he, hre, _⟩ := h4 r hr
    obtain ⟨r0, hr0, hsnd⟩ := hLshape e he
    obtain ⟨t, ht⟩ := dlookup_some_of_isSome resource_targets r0 hr0
    have hmem : (r0, t) ∈ resource_targets := dlookup_mem resource_targets r0 t ht
    refine ⟨(r0, t), hmem, ?_⟩
    rw [hre, hsnd]
    exact resName_prNode p.id r0 (V.planets_bar p hp) (V.targets_bar (r0, t) hmem)

/- ----------------------------------------------------------------------
Stability pass and fill pass lemmas.
---------------------------------------------------------------------- -/

lemma dupdate_fresh {α : Type} (k : String) (v : α) :
    ∀ (l : List (String × α)), k ∉ l.map Prod.fst → dupdate k v l = l ++ [(k, v)]
  | [], _ => rfl
  | (k2, v2) :: rest, h => by
    simp only [List.map_cons, List.mem_cons] at h
    push_neg at h
    have hne : ¬ (k2 = k) := fun hc => h.1 hc.symm
    simp only [dupdate, if_neg hne]
    rw [dupdate_fresh k v rest h.2, List.cons_append]

lemma dlookup_append_left {α : Type} (k : String) :
    ∀ (l1 l2 : List (String × α)), (dlookup k l1).isSome →
      dlookup k (l1 ++ l2) = dlookup k l1
  | [], _, h => by simp [dlookup] at h
  | (k2, v2) :: rest, l2, h => by
    by_cases hk : k2 = k
    · simp [dlookup, hk]
    · simp only [dlookup, if_neg hk] at h ⊢
      exact dlookup_append_left k rest l2 h

lemma dlookup_append_right {α : Type} (k : String) :
    ∀ (l1 l2 : List (String × α)), dlookup k l1 = none →
      dlookup k (l1 ++ l2) = dlookup k l2
  | [], _, _ => rfl
  | (k2, v2) :: rest, l2, h => by
    by_cases hk : k2 = k
    · simp [dlookup, hk] at h
    · simp only [dlookup, if_neg hk] at h ⊢
      exact dlookup_append_right k rest l2 h

lemma dlookup_none_iff {α : Type} (k : String) :
    ∀ (l : List (String × α)), dlookup k l = none ↔ k ∉ l.map Prod.fst
  | [] => by simp [dlookup]
  | (k2, v2) :: rest => by
    by_cases hk : k2 = k
    · subst hk
      simp [dlookup]
    · simp only [dlookup, if_neg hk, List.map_cons, List.mem_cons]
      rw [dlookup_none_iff k rest]
      constructor
      · intro h1 h2
        rcases h2 with h3 | h3
        · exact hk h3.symm
        · exact h1 h3
      · intro h1 h2
        exact h1 (Or.inr h2)

lemma dlookup_isSome_of_mem_keys {α : Type} (k : String) (l : List (String × α))
    (h : k ∈ l.map Prod.fst) : (dlookup k l).isSome := by
  by_cases hn : dlookup k l = none
  · exact absurd h ((dlookup_none_iff k l).mp hn)
  · rw [Option.isSome_iff_ne_none]
    exact hn

lemma stabStep_cases (ca : Assignments) (pid : String)
    (st : List (String × Option String) × List String × List String) (v : String) :
    (∃ r, preferredRes ca v pid = some r ∧ r ≠ "" ∧ r ∈ st.2.2 ∧
      stabStep ca pid st v = (dupdate v (some r) st.1, st.2.1.erase v, st.2.2.erase r)) ∨
    (stabStep ca pid st v = st ∧
      ∀ r, preferredRes ca v pid = some r → r ≠ "" → r ∉ st.2.2) := by
  unfold stabStep
  cases hp : preferredRes ca v pid with
  | none =>
    right
    refine ⟨rfl, ?_⟩
    intro r hr
    simp at hr
  | some r =>
    by_cases hc : r ≠ "" ∧ r ∈ st.2.2
    · exact Or.inl ⟨r, rfl, hc.1, hc.2, if_pos hc⟩
    · right
      refine ⟨if_neg hc, ?_⟩
      intro r2 hr2 hne2 hmem2
      injection hr2 with hr3
      subst hr3
      exact hc ⟨hne2, hmem2⟩

lemma stabFold_perm (ca : Assignments) (pid : String) (visitors items : List String)
    (hnd : visitors.Nodup) :
    ∀ (todo : List String) (st : List (String × Option String) × List String × List String),
      List.Perm (st.1.map Prod.fst ++ st.2.1) visitors →
      List.Perm (st.1.filterMap Prod.snd ++ st.2.2) items →
      (∀ kv ∈ st.1, ∃ r : String, kv.2 = some r ∧ r ≠ "") →
      (∀ v ∈ todo, v ∈ st.2.1) →
      todo.Nodup →
      List.Perm ((todo.foldl (stabStep ca pid) st).1.map Prod.fst
          ++ (todo.foldl (stabStep ca pid) st).2.1) visitors ∧
      List.Perm ((todo.foldl (stabStep ca pid) st).1.filterMap Prod.snd
          ++ (todo.foldl (stabStep ca pid) st).2.2) items ∧
      (∀ kv ∈ (todo.foldl (stabStep ca pid) st).1, ∃ r : String, kv.2 = some r ∧ r ≠ "")
  | [], st, h1, h2, h3, _, _ => ⟨h1, h2, h3⟩
  | v :: rest, st, h1, h2, h3, htodo, hndt => by
    have hfold : (v :: rest).foldl (stabStep ca pid) st
        = rest.foldl (stabStep ca pid) (stabStep ca pid st v) := List.foldl_cons ..
    rcases stabStep_cases ca pid st v with ⟨r, hpref, hne, hmem, heq⟩ | ⟨heq, _⟩
    · have hvp : v ∈ st.2.1 := htodo v (by simp)
      have happnd : (st.1.map Prod.fst ++ st.2.1).Nodup :=
        (List.Perm.nodup_iff h1).mpr hnd
      have hvkeys : v ∉ st.1.map Prod.fst := by
        intro hvk
        have := (List.nodup_append.mp happnd).2.2
        exact this hvk hvp
      have hupf : dupdate v (some r) st.1 = st.1 ++ [(v, some r)] :=
        dupdate_fresh v (some r) st.1 hvkeys
      have h1' : List.Perm ((st.1 ++ [(v, some r)]).map Prod.fst ++ st.2.1.erase v)
          visitors := by
        refine List.Perm.trans ?_ h1
        rw [List.map_append, List.append_assoc]
        refine List.Perm.append_left _ ?_
        simp only [List.map_cons, List.map_nil]
        exact List.Perm.symm (by simpa using List.perm_cons_erase hvp)
      have h2' : List.Perm ((st.1 ++ [(v, some r)]).filterMap Prod.snd
          ++ st.2.2.erase r) items := by
        refine List.Perm.trans ?_ h2
        rw [List.filterMap_append, List.append_assoc]
        refine List.Perm.append_left _ ?_
        simp only [List.filterMap]
        exact List.Perm.symm (by simpa using List.perm_cons_erase hmem)
      have h3' : ∀ kv ∈ st.1 ++ [(v, some r)], ∃ r2 : String, kv.2 = some r2 ∧ r2 ≠ "" := by
        intro kv hkv
        rcases List.mem_append.mp hkv with h4 | h4
        · exact h3 kv h4
        · simp at h4
          exact ⟨r, by simp [h4], hne⟩
      have htodo' : ∀ u ∈ rest, u ∈ st.2.1.erase v := by
        intro u hu
        have hne2 : u ≠ v := by
          intro hc
          exact (List.nodup_cons.mp hndt).1 (hc ▸ hu)
        exact (List.mem_erase_of_ne hne2).mpr (htodo u (by simp [hu]))
      rw [hfold, heq]
      have := stabFold_perm ca pid visitors items hnd rest
        (dupdate v (some r) st.1, st.2.1.erase v, st.2.2.erase r)
        (by rw [hupf]; exact h1') (by rw [hupf]; exact h2')
        (by rw [hupf]; exact h3') htodo' (List.nodup_cons.mp hndt).2
      exact this
    · rw [hfold, heq]
      exact stabFold_perm ca pid visitors items hnd rest st h1 h2 h3
        (fun u hu => htodo u (by simp [hu])) (List.nodup_cons.mp hndt).2

lemma stabFold_pref (ca : Assignments) (pid : String) :
    ∀ (todo : List String)
      (st : List (String × Option String) × List String × List String),
      (∀ v o, dlookup v st.1 = some o → ∃ r, o = some r ∧ preferredRes ca v pid = some r) →
      ∀ v o, dlookup v (todo.foldl (stabStep ca pid) st).1 = some o →
        ∃ r, o = some r ∧ preferredRes ca v pid = some r
  | [], _, h, v, o, hl => h v o hl
  | u :: rest, st, h, v, o, hl => by
    have hfold : (u :: rest).foldl (stabStep ca pid) st
        = rest.foldl (stabStep ca pid) (stabStep ca pid st u) := List.foldl_cons ..
    rw [hfold] at hl
    refine stabFold_pref ca pid rest (stabStep ca pid st u) ?_ v o hl
    intro v2 o2 hl2
    rcases stabStep_cases ca pid st u with ⟨r, hpref, _, _, heq⟩ | ⟨heq, _⟩
    · rw [heq] at hl2
      simp only at hl2
      rw [dlookup_dupdate] at hl2
      by_cases hv : u = v2
      · subst hv
        rw [if_pos rfl] at hl2
        injection hl2 with hl3
        exact ⟨r, hl3.symm, hpref⟩
      · rw [if_neg hv] at hl2
        exact h v2 o2 hl2
    · rw [heq] at hl2
      exact h v2 o2 hl2

lemma stabFold_max (ca : Assignments) (pid : String) :
    ∀ (todo : List String)
      (st : List (String × Option String) × List String × List String),
      st.2.1.Nodup →
      (∀ v ∈ st.2.1, v ∉ todo → ∀ r, preferredRes ca v pid = some r → r ≠ "" →
        r ∉ st.2.2) →
      todo.Nodup →
      ∀ v ∈ (todo.foldl (stabStep ca pid) st).2.1,
        ∀ r, preferredRes ca v pid = some r → r ≠ "" →
          r ∉ (todo.foldl (stabStep ca pid) st).2.2
  | [], st, _, h, _, v, hv, r, hr, hne => h v hv (by simp) r hr hne
  | u :: rest, st, hndp, h, hndt, v, hv, r, hr, hne => by
    have hfold : (u :: rest).foldl (stabStep ca pid) st
        = rest.foldl (stabStep ca pid) (stabStep ca pid st u) := List.foldl_cons ..
    rw [hfold] at hv ⊢
    rcases stabStep_cases ca pid st u with ⟨r0, hpref, hne0, hmem0, heq⟩ | ⟨heq, hfail⟩
    · refine stabFold_max ca pid rest _ ?_ ?_ (List.nodup_cons.mp hndt).2 v hv r hr hne
      · rw [heq]
        exact List.Nodup.erase u hndp
      · intro v2 hv2 hv2r r2 hr2 hne2
        rw [heq] at hv2 ⊢
        simp only at hv2 ⊢
        have hv2p : v2 ∈ st.2.1 := List.mem_of_mem_erase hv2
        have hv2u : v2 ≠ u := by
          intro hc
          subst hc
          exact (List.Nodup.not_mem_erase hndp) hv2
        have hv2todo : v2 ∉ u :: rest := by
          intro hc
          rcases List.mem_cons.mp hc with h5 | h5
          · exact hv2u h5
          · exact hv2r h5
        intro hmem2
        exact h v2 hv2p hv2todo r2 hr2 hne2 (List.mem_of_mem_erase hmem2)
    · refine stabFold_max ca pid rest _ ?_ ?_ (List.nodup_cons.mp hndt).2 v hv r hr hne
      · rw [heq]
        exact hndp
      · intro v2 hv2 hv2r r2 hr2 hne2
        rw [heq] at hv2 ⊢
        by_cases hvu : v2 = u
        · subst hvu
          exact hfail r2 hr2 hne2
        · have hv2todo : v2 ∉ u :: rest := by
            intro hc
            rcases List.mem_cons.mp hc with h5 | h5
            · exact hvu h5
            · exact hv2r h5
          exact h v2 hv2 hv2todo r2 hr2 hne2

lemma stabFold_none (ca : Assignments) (pid : String) (v : String)
    (hpref : preferredRes ca v pid = none) :
    ∀ (todo : List String)
      (st : List (String × Option String) × List String × List String),
      dlookup v (todo.foldl (stabStep ca pid) st).1 = dlookup v st.1 ∧
      (v ∈ (todo.foldl (stabStep ca pid) st).2.1 ↔ v ∈ st.2.1)
  | [], _ => ⟨rfl, Iff.rfl⟩
  | u :: rest, st => by
    have hfold : (u :: rest).foldl (stabStep ca pid) st
        = rest.foldl (stabStep ca pid) (stabStep ca pid st u) := List.foldl_cons ..
    rw [hfold]
    obtain ⟨ih1, ih2⟩ := stabFold_none ca pid v hpref rest (stabStep ca pid st u)
    rcases stabStep_cases ca pid st u with ⟨r, hp2, _, _, heq⟩ | ⟨heq, _⟩
    · have hvu : u ≠ v := by
        intro hc
        subst hc
        rw [hpref] at hp2
        cases hp2
      constructor
      · rw [ih1, heq]
        simp only
        rw [dlookup_dupdate, if_neg hvu]
      · rw [ih2, heq]
        simp only
        exact List.mem_erase_of_ne (fun hc => hvu hc.symm)
    · rw [heq] at ih1 ih2
      rw [heq]
      exact ⟨ih1, ih2⟩

lemma fillFold_spec :
    ∀ (pending : List String) (asg : List (String × Option String))
      (items : List String),
      pending.length = items.length →
      pending.Nodup →
      (∀ v ∈ pending, v ∉ asg.map Prod.fst) →
      (pending.foldl fillStep (asg, items)).1
        = asg ++ pending.zip (items.map Option.some)
  | [], asg, items, _, _, _ => by simp
  | v :: pv, asg, items, hlen, hndp, hfresh => by
    cases items with
    | nil => simp at hlen
    | cons i it =>
      have hstep : fillStep (asg, i :: it) v = (dupdate v (some i) asg, it) := rfl
      have hupf : dupdate v (some i) asg = asg ++ [(v, some i)] :=
        dupdate_fresh v (some i) asg (hfresh v (by simp))
      have hfold : (v :: pv).foldl fillStep (asg, i :: it)
          = pv.foldl fillStep (fillStep (asg, i :: it) v) := List.foldl_cons ..
      rw [hfold, hstep, hupf]
      rw [fillFold_spec pv (asg ++ [(v, some i)]) it (by simpa using hlen)
        (List.nodup_cons.mp hndp).2 ?_]
      · simp [List.append_assoc]
      · intro u hu
        rw [List.map_append]
        simp only [List.map_cons, List.map_nil, List.mem_append, List.mem_cons]
        push_neg
        refine ⟨fun hc => hfresh u (by simp [hu]) hc, ?_, by simp⟩
        intro hc
        exact (List.nodup_cons.mp hndp).1 (hc ▸ hu)

/- ----------------------------------------------------------------------
Work order accounting.
---------------------------------------------------------------------- -/

lemma orderYield_orderFor (ca : Assignments) (p : Planet) (v : String) (o : Option String) :
    orderYield (orderFor ca p v o)
      = match o with
        | some r => if r = "" then 0 else (dlookup r p.resources).getD 0
        | none => 0 := by
  cases o with
  | none => rfl
  | some r =>
    by_cases hr : r = ""
    · simp [orderFor, orderYield, hr]
    · simp [orderFor, orderYield, hr]

lemma orderFor_isCollect (ca : Assignments) (p : Planet) (v r : String)
    (hr : r ≠ "") : (orderFor ca p v (some r)).isCollect = true := by
  simp [orderFor, hr, Order.isCollect]

lemma find_self (pd : List Planet) (hnd : (pd.map Planet.id).Nodup) (p : Planet)
    (hp : p ∈ pd) : pd.find? (fun q => q.id == p.id) = some p := by
  induction pd with
  | nil => cases hp
  | cons q rest ih =>
    rcases List.mem_cons.mp hp with h | h
    · subst h
      simp [List.find?]
    · have hq : (q.id == p.id) = false := by
        simp only [beq_eq_false_iff_ne, ne_eq]
        intro hc
        have hmem : p.id ∈ rest.map Planet.id := List.mem_map_of_mem Planet.id h
        rw [← hc] at hmem
        exact (List.nodup_cons.mp hnd).1 hmem
      simp only [List.find?_cons, hq]
      exact ih (List.nodup_cons.mp hnd).2 h

lemma orderYieldIn_orderFor (ca : Assignments) (pd : List Planet)
    (hnd : (pd.map Planet.id).Nodup) (p : Planet) (hp : p ∈ pd) (v r : String)
    (hr : r ≠ "") :
    orderYieldIn pd (orderFor ca p v (some r)) = orderYield (orderFor ca p v (some r)) := by
  simp only [orderFor, if_neg hr]
  simp [orderYieldIn, orderYield, find_self pd hnd p hp]

lemma appendOrder_keys (v : String) (o : Order) :
    ∀ wo : List (String × List Order), (appendOrder v o wo).map Prod.fst = wo.map Prod.fst
  | [] => rfl
  | (k, os) :: rest => by
    by_cases hk : k = v
    · simp [appendOrder, hk]
    · simp [appendOrder, hk, appendOrder_keys v o rest]

lemma woSum_appendOrder (v : String) (o : Order) :
    ∀ wo : List (String × List Order), v ∈ wo.map Prod.fst →
      woSum (appendOrder v o wo) = woSum wo + orderYield o
  | [], h => by simp at h
  | (k, os) :: rest, h => by
    by_cases hk : k = v
    · simp only [appendOrder, if_pos hk, woSum, List.map_cons, List.sum_cons,
        List.map_append, List.sum_append, List.map_nil, List.sum_nil]
      omega
    · have hv : v ∈ rest.map Prod.fst := by
        rw [List.map_cons] at h
        rcases List.mem_cons.mp h with h1 | h1
        · exact absurd h1.symm hk
        · exact h1
      simp only [appendOrder, if_neg hk, woSum, List.map_cons, List.sum_cons]
      have := woSum_appendOrder v o rest hv
      simp only [woSum] at this
      omega

lemma AllOrders_appendOrder (pd : List Planet) (v : String) (o : Order)
    (ho : o.isCollect = true ∧ orderYieldIn pd o = orderYield o) :
    ∀ wo : List (String × List Order), AllOrders pd wo → AllOrders pd (appendOrder v o wo)
  | [], h => h
  | (k, os) :: rest, h => by
    intro kv hkv o2 ho2
    by_cases hk : k = v
    · simp only [appendOrder, if_pos hk] at hkv
      rcases List.mem_cons.mp hkv with h1 | h1
      · subst h1
        rcases List.mem_append.mp ho2 with h2 | h2
        · exact h (k, os) (by simp) o2 h2
        · simp only [List.mem_singleton] at h2
          subst h2
          exact ho
      · exact h kv (by simp [h1]) o2 ho2
    · simp only [appendOrder, if_neg hk] at hkv
      rcases List.mem_cons.mp hkv with h1 | h1
      · subst h1
        exact h (k, os) (by simp) o2 ho2
      · exact AllOrders_appendOrder pd v o ho rest
          (fun kv2 hkv2 o3 ho3 => h kv2 (by simp [hkv2]) o3 ho3) kv h1 o2 ho2

lemma mem_keys_dupdate {α : Type} (k k2 : String) (v : α) :
    ∀ l : List (String × α),
      (k2 ∈ (dupdate k v l).map Prod.fst ↔ k2 = k ∨ k2 ∈ l.map Prod.fst)
  | [] => by simp [dupdate]
  | (k3, v3) :: rest => by
    by_cases h3 : k3 = k
    · subst h3
      simp [dupdate]
    · simp [dupdate, h3, mem_keys_dupdate k k2 v rest]
      tauto

lemma mem_dupdate {α : Type} (k : String) (v : α) :
    ∀ l : List (String × α), ∀ kv ∈ dupdate k v l, kv = (k, v) ∨ kv ∈ l
  | [], kv, hkv => by
    simp only [dupdate, List.mem_singleton] at hkv
    exact Or.inl hkv
  | (k3, v3) :: rest, kv, hkv => by
    by_cases h3 : k3 = k
    · subst h3
      simp only [dupdate, if_pos rfl] at hkv
      rcases List.mem_cons.mp hkv with h | h
      · exact Or.inl h
      · exact Or.inr (by simp [h])
    · simp only [dupdate, if_neg h3] at hkv
      rcases List.mem_cons.mp hkv with h | h
      · exact Or.inr (by simp [h])
      · rcases mem_dupdate k v rest kv h with h2 | h2
        · exact Or.inl h2
        · exact Or.inr (by simp [h2])

lemma initOrders_keys_aux :
    ∀ (cs : List Character) (acc : List (String × List Order)) (k : String),
      k ∈ acc.map Prod.fst ∨ k ∈ cs.map Character.id →
      k ∈ (cs.foldl (fun wo c => dupdate c.id ([] : List Order) wo) acc).map Prod.fst
  | [], acc, k, h => by
    rcases h with h | h
    · exact h
    · simp at h
  | c :: rest, acc, k, h => by
    rw [List.foldl_cons]
    apply initOrders_keys_aux rest (dupdate c.id [] acc) k
    rcases h with h | h
    · exact Or.inl ((mem_keys_dupdate c.id k [] acc).mpr (Or.inr h))
    · rw [List.map_cons] at h
      rcases List.mem_cons.mp h with h1 | h1
      · exact Or.inl ((mem_keys_dupdate c.id k [] acc).mpr (Or.inl h1))
      · exact Or.inr h1

lemma initOrders_keys (characters : List Character) (c : Character) (hc : c ∈ characters) :
    c.id ∈ (initOrders characters).map Prod.fst :=
  initOrders_keys_aux characters [] c.id (Or.inr (List.mem_map_of_mem Character.id hc))

lemma initOrders_entries (characters : List Character) :
    ∀ kv ∈ initOrders characters, kv.2 = ([] : List Order) := by
  unfold initOrders
  apply foldl_preserve (fun wo : List (String × List Order) => ∀ kv ∈ wo, kv.2 = [])
  · intro kv hkv
    simp at hkv
  · intro wo c _ h kv hkv
    rcases mem_dupdate c.id [] wo kv hkv with h1 | h1
    · rw [h1]
    · exact h kv h1

lemma woSum_initOrders (characters : List Character) : woSum (initOrders characters) = 0 := by
  unfold woSum
  apply List.sum_eq_zero
  intro x hx
  rcases List.mem_map.mp hx with ⟨kv, hkv, hx2⟩
  rw [← hx2, initOrders_entries characters kv hkv]
  rfl

lemma AllOrders_initOrders (pd : List Planet) (characters : List Character) :
    AllOrders pd (initOrders characters) := by
  intro kv hkv o ho
  rw [initOrders_entries characters kv hkv] at ho
  simp at ho

/- ----------------------------------------------------------------------
The per-planet assignment: stability pass followed by fill pass.
---------------------------------------------------------------------- -/

lemma filterMap_snd_length {α : Type} :
    ∀ l : List (String × Option α), (∀ kv ∈ l, ∃ r, kv.2 = some r) →
      (l.filterMap Prod.snd).length = l.length
  | [], _ => rfl
  | (k, o) :: rest, h => by
    obtain ⟨r, hr⟩ := h (k, o) (by simp)
    simp only at hr
    subst hr
    simp [List.filterMap_cons, filterMap_snd_length rest (fun kv hkv => h kv (by simp [hkv]))]

lemma zip_some_filterMap {α : Type} :
    ∀ (l : List String) (m : List α), l.length = m.length →
      (l.zip (m.map Option.some)).filterMap Prod.snd = m
  | [], [], _ => rfl
  | [], _ :: _, h => by simp at h
  | _ :: _, [], h => by simp at h
  | a :: l, b :: m, h => by
    simp only [List.map_cons, List.zip_cons_cons, List.filterMap_cons]
    simp [zip_some_filterMap l m (by simpa using h)]

lemma visitorsAt_nodup (characters : List Character) (f : FlowMap) (pid : String)
    (hnd : (characters.map Character.id).Nodup) : (visitorsAt characters f pid).Nodup := by
  unfold visitorsAt
  exact List.Nodup.sublist (List.Sublist.map Character.id (List.filter_sublist characters)) hnd

lemma planetAsg_spec (ca : Assignments) (pid : String) (visitors items : List String)
    (hnd : visitors.Nodup) (hlen : visitors.length = items.length) :
    List.Perm ((fillPass (stabilityPass ca pid visitors items).1
        (stabilityPass ca pid visitors items).2.1
        (stabilityPass ca pid visitors items).2.2).map Prod.fst) visitors ∧
    List.Perm ((fillPass (stabilityPass ca pid visitors items).1
        (stabilityPass ca pid visitors items).2.1
        (stabilityPass ca pid visitors items).2.2).filterMap Prod.snd) items ∧
    (∀ kv ∈ fillPass (stabilityPass ca pid visitors items).1
        (stabilityPass ca pid visitors items).2.1
        (stabilityPass ca pid visitors items).2.2, ∃ r, kv.2 = some r) ∧
    ∀ v ∈ visitors, ∃ r ∈ items,
      dlookup v (fillPass (stabilityPass ca pid visitors items).1
        (stabilityPass ca pid visitors items).2.1
        (stabilityPass ca pid visitors items).2.2) = some (some r) := by
  obtain ⟨P1, P2, P3⟩ := stabFold_perm ca pid visitors items hnd visitors
    ([], visitors, items) (by simp) (by simp) (by simp) (fun v hv => hv) hnd
  set S := stabilityPass ca pid visitors items with hS
  have hSfold : S = visitors.foldl (stabStep ca pid) ([], visitors, items) := rfl
  rw [← hSfold] at P1 P2 P3
  have hA : (S.1.map Prod.fst ++ S.2.1).Nodup := (List.Perm.nodup_iff P1).mpr hnd
  have h1 := List.nodup_append.mp hA
  have hlen1 : S.1.length + S.2.1.length = visitors.length := by
    have := List.Perm.length_eq P1
    simpa using this
  have hfm : (S.1.filterMap Prod.snd).length = S.1.length :=
    filterMap_snd_length S.1 (fun kv hkv => (P3 kv hkv).imp (fun r h => h.1))
  have hlen2 : S.1.length + S.2.2.length = items.length := by
    have := List.Perm.length_eq P2
    simp only [List.length_append] at this
    omega
  have hpend : S.2.1.length = S.2.2.length := by omega
  have hfresh : ∀ v ∈ S.2.1, v ∉ S.1.map Prod.fst :=
    fun v hv hv1 => h1.2.2 hv1 hv
  have hfill : fillPass S.1 S.2.1 S.2.2 = S.1 ++ S.2.1.zip (S.2.2.map Option.some) := by
    unfold fillPass
    exact fillFold_spec S.2.1 S.1 S.2.2 (by simpa using hpend) h1.2.1 hfresh
  have hkeys : (fillPass S.1 S.2.1 S.2.2).map Prod.fst = S.1.map Prod.fst ++ S.2.1 := by
    rw [hfill, List.map_append,
      List.map_fst_zip S.2.1 (S.2.2.map Option.some) (by simp [hpend])]
  have hvals : (fillPass S.1 S.2.1 S.2.2).filterMap Prod.snd
      = S.1.filterMap Prod.snd ++ S.2.2 := by
    rw [hfill, List.filterMap_append, zip_some_filterMap S.2.1 S.2.2 hpend]
  have hsome : ∀ kv ∈ fillPass S.1 S.2.1 S.2.2, ∃ r, kv.2 = some r := by
    intro kv hkv
    rw [hfill] at hkv
    rcases List.mem_append.mp hkv with h | h
    · exact (P3 kv h).imp (fun r h2 => h2.1)
    · obtain ⟨a, b⟩ := kv
      have := (List.of_mem_zip h).2
      rcases List.mem_map.mp this with ⟨r, _, hr⟩
      exact ⟨r, hr.symm⟩
  refine ⟨?_, ?_, hsome, ?_⟩
  · rw [hkeys]
    exact P1
  · rw [hvals]
    exact P2
  · intro v hv
    have hvk : v ∈ (fillPass S.1 S.2.1 S.2.2).map Prod.fst := by
      rw [hkeys]
      exact (List.Perm.mem_iff P1).mpr hv
    obtain ⟨o, ho⟩ := dlookup_some_of_isSome _ v (dlookup_isSome_of_mem_keys v _ hvk)
    have hmem : (v, o) ∈ fillPass S.1 S.2.1 S.2.2 := dlookup_mem _ v o ho
    obtain ⟨r, hr⟩ := hsome (v, o) hmem
    simp only at hr
    subst hr
    refine ⟨r, ?_, ho⟩
    have hrf : r ∈ (fillPass S.1 S.2.1 S.2.2).filterMap Prod.snd :=
      List.mem_filterMap.mpr ⟨(v, some r), hmem, rfl⟩
    rw [hvals] at hrf
    exact (List.Perm.mem_iff P2).mp hrf

lemma visitors_items_length (characters : List Character) (resource_targets : Targets)
    (pd : List Planet) (ca : Assignments) (sc : Int)
    (V : ValidInput characters resource_targets pd) (p : Planet) (hp : p ∈ pd)
    (f : FlowMap)
    (hcap : capRespects (buildGraph characters resource_targets pd ca sc).edges f)
    (hfe : flowOnEdges (buildGraph characters resource_targets pd ca sc).edges f)
    (hcons : flowConserved (buildGraph characters resource_targets pd ca sc).edges f) :
    (visitorsAt characters f p.id).length
      = (itemsAt (buildGraph characters resource_targets pd ca sc).edges p f).1.length := by
  rw [visitorsAt_length_eq_inflow characters resource_targets pd ca sc V p hp f hcap hfe,
    (itemsAt_spec characters resource_targets pd ca sc V p hp f).1]
  exact hcons p.id (V.planets_not_sp p hp).1 (V.planets_not_sp p hp).2

lemma map_lookup_eq_map_snd {β : Type} (g : Option String → β) :
    ∀ asg : List (String × Option String), (asg.map Prod.fst).Nodup →
      (asg.map Prod.fst).map (fun v => g ((dlookup v asg).getD none))
        = asg.map (fun kv => g kv.2)
  | [], _ => rfl
  | (k, o) :: rest, hnd => by
    simp only [List.map_cons]
    have hhead : (dlookup k ((k, o) :: rest)).getD none = o := by
      simp [dlookup]
    rw [hhead]
    have htail : (rest.map Prod.fst).map (fun v => g ((dlookup v ((k, o) :: rest)).getD none))
        = (rest.map Prod.fst).map (fun v => g ((dlookup v rest).getD none)) := by
      apply List.map_congr_left
      intro v hv
      have hvk : ¬ (k = v) := by
        intro hc
        exact (List.nodup_cons.mp (by simpa using hnd)).1 (hc ▸ hv)
      rw [dlookup, if_neg hvk]
    rw [htail, map_lookup_eq_map_snd g rest (List.nodup_cons.mp (by simpa using hnd)).2]

lemma map_snd_filterMap {β : Type} (g : Option String → β) :
    ∀ asg : List (String × Option String), (∀ kv ∈ asg, ∃ r, kv.2 = some r) →
      asg.map (fun kv => g kv.2) = (asg.filterMap Prod.snd).map (fun r => g (some r))
  | [], _ => rfl
  | (k, o) :: rest, h => by
    obtain ⟨r, hr⟩ := h (k, o) (by simp)
    simp only at hr
    subst hr
    simp [List.filterMap_cons, map_snd_filterMap g rest (fun kv hkv => h kv (by simp [hkv]))]

lemma visitors_yield_sum (ca : Assignments) (p : Planet) (visitors items : List String)
    (asg : List (String × Option String))
    (hknd : (asg.map Prod.fst).Nodup)
    (hkeys : List.Perm (asg.map Prod.fst) visitors)
    (hvals : List.Perm (asg.filterMap Prod.snd) items)
    (hsome : ∀ kv ∈ asg, ∃ r, kv.2 = some r)
    (hne : ∀ r ∈ items, r ≠ "") :
    (visitors.map (fun v =>
        orderYield (orderFor ca p v ((dlookup v asg).getD none)))).sum = sumY p items := by
  set g : Option String → Int := fun o => match o with
    | some r => if r = "" then 0 else (dlookup r p.resources).getD 0
    | none => 0 with hg
  have h1 : ∀ v ∈ visitors, orderYield (orderFor ca p v ((dlookup v asg).getD none))
      = g ((dlookup v asg).getD none) :=
    fun v _ => orderYield_orderFor ca p v _
  calc (visitors.map (fun v =>
          orderYield (orderFor ca p v ((dlookup v asg).getD none)))).sum
      = (visitors.map (fun v => g ((dlookup v asg).getD none))).sum := by
        rw [List.map_congr_left h1]
    _ = ((asg.map Prod.fst).map (fun v => g ((dlookup v asg).getD none))).sum :=
        List.Perm.sum_eq (List.Perm.map _ hkeys.symm)
    _ = (asg.map (fun kv => g kv.2)).sum := by
        rw [map_lookup_eq_map_snd g asg hknd]
    _ = ((asg.filterMap Prod.snd).map (fun r => g (some r))).sum := by
        rw [map_snd_filterMap g asg hsome]
    _ = (items.map (fun r => g (some r))).sum :=
        List.Perm.sum_eq (List.Perm.map _ hvals)
    _ = sumY p items := by
        unfold sumY
        congr 1
        apply List.map_congr_left
        intro r hr
        simp [hg, hne r hr]

lemma ordersFold_spec (ca : Assignments) (p : Planet) (asg : List (String × Option String)) :
    ∀ (visitors : List String) (wo : List (String × List Order)),
      (∀ v ∈ visitors, v ∈ wo.map Prod.fst) →
      ((visitors.foldl (fun wo v =>
          appendOrder v (orderFor ca p v ((dlookup v asg).getD none)) wo) wo).map Prod.fst
        = wo.map Prod.fst) ∧
      woSum (visitors.foldl (fun wo v =>
          appendOrder v (orderFor ca p v ((dlookup v asg).getD none)) wo) wo)
        = woSum wo + (visitors.map (fun v =>
            orderYield (orderFor ca p v ((dlookup v asg).getD none)))).sum
  | [], wo, _ => by simp
  | v :: rest, wo, h => by
    have hkeys := appendOrder_keys v (orderFor ca p v ((dlookup v asg).getD none)) wo
    have hws := woSum_appendOrder v (orderFor ca p v ((dlookup v asg).getD none)) wo
      (h v (by simp))
    have hrest : ∀ u ∈ rest,
        u ∈ (appendOrder v (orderFor ca p v ((dlookup v asg).getD none)) wo).map Prod.fst := by
      intro u hu
      rw [hkeys]
      exact h u (by simp [hu])
    obtain ⟨ih1, ih2⟩ := ordersFold_spec ca p asg rest
      (appendOrder v (orderFor ca p v ((dlookup v asg).getD none)) wo) hrest
    constructor
    · rw [List.foldl_cons, ih1, hkeys]
    · rw [List.foldl_cons, ih2, hws, List.map_cons, List.sum_cons]
      omega

lemma ordersFold_all (pd : List Planet) (ca : Assignments) (p : Planet)
    (asg : List (String × Option String)) :
    ∀ (visitors : List String) (wo : List (String × List Order)),
      (∀ v ∈ visitors, (orderFor ca p v ((dlookup v asg).getD none)).isCollect = true ∧
        orderYieldIn pd (orderFor ca p v ((dlookup v asg).getD none))
          = orderYield (orderFor ca p v ((dlookup v asg).getD none))) →
      AllOrders pd wo →
      AllOrders pd (visitors.foldl (fun wo v =>
        appendOrder v (orderFor ca p v ((dlookup v asg).getD none)) wo) wo)
  | [], _, _, hall => hall
  | v :: rest, wo, h, hall => by
    rw [List.foldl_cons]
    exact ordersFold_all pd ca p asg rest _ (fun u hu => h u (by simp [hu]))
      (AllOrders_appendOrder pd v _ (h v (by simp)) wo hall)

/- ----------------------------------------------------------------------
Per-planet and whole-run extraction invariants.
---------------------------------------------------------------------- -/

lemma processPlanet_eq (ca : Assignments) (chars : List Character) (es : EdgeList)
    (f : FlowMap) (wo : List (String × List Order)) (tot : Int) (p : Planet) :
    processPlanet ca chars es f wo tot p
      = ((visitorsAt chars f p.id).foldl (fun wo v =>
            appendOrder v (orderFor ca p v ((dlookup v
              (fillPass (stabilityPass ca p.id (visitorsAt chars f p.id) (itemsAt es p f).1).1
                (stabilityPass ca p.id (visitorsAt chars f p.id) (itemsAt es p f).1).2.1
                (stabilityPass ca p.id (visitorsAt chars f p.id)
                  (itemsAt es p f).1).2.2)).getD none)) wo) wo,
         tot + (itemsAt es p f).2) := rfl

lemma processPlanet_spec (characters : List Character) (resource_targets : Targets)
    (pd : List Planet) (ca : Assignments) (sc : Int)
    (V : ValidInput characters resource_targets pd) (f : FlowMap)
    (hcap : capRespects (buildGraph characters resource_targets pd ca sc).edges f)
    (hfe : flowOnEdges (buildGraph characters resource_targets pd ca sc).edges f)
    (hcons : flowConserved (buildGraph characters resource_targets pd ca sc).edges f)
    (p : Planet) (hp : p ∈ pd) (wo : List (String × List Order)) (tot : Int)
    (hkeys : ∀ c ∈ characters, c.id ∈ wo.map Prod.fst) :
    ((processPlanet ca characters (buildGraph characters resource_targets pd ca sc).edges
        f wo tot p).1.map Prod.fst = wo.map Prod.fst) ∧
    woSum (processPlanet ca characters (buildGraph characters resource_targets pd ca sc).edges
        f wo tot p).1
      = woSum wo + (itemsAt (buildGraph characters resource_targets pd ca sc).edges p f).2 ∧
    (processPlanet ca characters (buildGraph characters resource_targets pd ca sc).edges
        f wo tot p).2
      = tot + (itemsAt (buildGraph characters resource_targets pd ca sc).edges p f).2 ∧
    (AllOrders pd wo →
      AllOrders pd (processPlanet ca characters
        (buildGraph characters resource_targets pd ca sc).edges f wo tot p).1) := by
  set es := (buildGraph characters resource_targets pd ca sc).edges with hes
  set visitors := visitorsAt characters f p.id with hvis
  set items := (itemsAt es p f).1 with hitems
  set asg := fillPass (stabilityPass ca p.id visitors items).1
    (stabilityPass ca p.id visitors items).2.1
    (stabilityPass ca p.id visitors items).2.2 with hasg
  have hvnd : visitors.Nodup := visitorsAt_nodup characters f p.id V.chars_nodup
  have hvlen : visitors.length = items.length :=
    visitors_items_length characters resource_targets pd ca sc V p hp f hcap hfe hcons
  obtain ⟨P1, P2, Psome, Plook⟩ := planetAsg_spec ca p.id visitors items hvnd hvlen
  have hknd : (asg.map Prod.fst).Nodup := (List.Perm.nodup_iff P1).mpr hvnd
  have hne : ∀ r ∈ items, r ≠ "" := by
    intro r hr
    obtain ⟨rt, hrt, hre⟩ :=
      (itemsAt_spec characters resource_targets pd ca sc V p hp f).2.2 r hr
    rw [hre]
    exact V.targets_ne_empty rt hrt
  have hfor : ∀ v ∈ visitors,
      (orderFor ca p v ((dlookup v asg).getD none)).isCollect = true ∧
      orderYieldIn pd (orderFor ca p v ((dlookup v asg).getD none))
        = orderYield (orderFor ca p v ((dlookup v asg).getD none)) := by
    intro v hv
    obtain ⟨r, hri, hlk⟩ := Plook v hv
    rw [hlk]
    simp only [Option.getD_some]
    exact ⟨orderFor_isCollect ca p v r (hne r hri),
      orderYieldIn_orderFor ca pd V.planets_nodup p hp v r (hne r hri)⟩
  have hwokeys : ∀ v ∈ visitors, v ∈ wo.map Prod.fst := by
    intro v hv
    rw [hvis] at hv
    unfold visitorsAt at hv
    rcases List.mem_map.mp hv with ⟨c, hc, hcv⟩
    rw [← hcv]
    exact hkeys c (List.mem_filter.mp hc).1
  obtain ⟨F1, F2⟩ := ordersFold_spec ca p asg visitors wo hwokeys
  have hsum : (visitors.map (fun v =>
      orderYield (orderFor ca p v ((dlookup v asg).getD none)))).sum = sumY p items :=
    visitors_yield_sum ca p visitors items asg hknd P1 P2 Psome hne
  have htot : (itemsAt es p f).2 = sumY p items :=
    (itemsAt_spec characters resource_targets pd ca sc V p hp f).2.1
  rw [processPlanet_eq]
  refine ⟨F1, ?_, rfl, ?_⟩
  · rw [F2, hsum, htot]
  · intro hall
    exact ordersFold_all pd ca p asg visitors wo hfor hall

lemma extractAll_spec (characters : List Character) (resource_targets : Targets)
    (pd : List Planet) (ca : Assignments) (sc : Int)
    (V : ValidInput characters resource_targets pd) (f : FlowMap)
    (hcap : capRespects (buildGraph characters resource_targets pd ca sc).edges f)
    (hfe : flowOnEdges (buildGraph characters resource_targets pd ca sc).edges f)
    (hcons : flowConserved (buildGraph characters resource_targets pd ca sc).edges f) :
    ((extractAll ca characters (buildGraph characters resource_targets pd ca sc).edges
        f pd).1.map Prod.fst = (initOrders characters).map Prod.fst) ∧
    woSum (extractAll ca characters (buildGraph characters resource_targets pd ca sc).edges
        f pd).1
      = (extractAll ca characters (buildGraph characters resource_targets pd ca sc).edges
        f pd).2 ∧
    AllOrders pd (extractAll ca characters
      (buildGraph characters resource_targets pd ca sc).edges f pd).1 := by
  unfold extractAll
  apply foldl_preserve (fun st : List (String × List Order) × Int =>
    (st.1.map Prod.fst = (initOrders characters).map Prod.fst) ∧
    woSum st.1 = st.2 ∧ AllOrders pd st.1)
  · exact ⟨rfl, woSum_initOrders characters, AllOrders_initOrders pd characters⟩
  · intro st p hp ⟨hk, hw, ha⟩
    have hkeys : ∀ c ∈ characters, c.id ∈ st.1.map Prod.fst := by
      intro c hc
      rw [hk]
      exact initOrders_keys characters c hc
    obtain ⟨Q1, Q2, Q3, Q4⟩ := processPlanet_spec characters resource_targets pd ca sc V f
      hcap hfe hcons p hp st.1 st.2 hkeys
    refine ⟨?_, ?_, Q4 ha⟩
    · rw [Q1, hk]
    · rw [Q2, Q3, hw]

lemma woSumIn_eq_woSum (pd : List Planet) (wo : List (String × List Order))
    (h : AllOrders pd wo) : woSumIn pd wo = woSum wo := by
  unfold woSumIn woSum
  congr 1
  apply List.map_congr_left
  intro kv hkv
  congr 1
  apply List.map_congr_left
  intro o ho
  exact (h kv hkv o ho).2

/- ----------------------------------------------------------------------
Claim theorems.
---------------------------------------------------------------------- -/

/-- C1: when the achievable Source-to-Sink flow is strictly below the sum of
the demand targets, `solve_mission` still returns normally with the best
achievable partial assignment.  In the concrete infeasible scenario (one
agent with max_visits 1, one location offering Iron with abundance 50,
demand Iron 2), every capacity-respecting conserved flow on the built
network has value strictly below the demand sum, and the run returns total
yield 50 with achieved flow value 1 rather than an error. -/
theorem claim_C1 :
    (∀ f : FlowMap,
      capRespects (buildGraph [⟨"A", 1, []⟩] [("Iron", 2)]
          [⟨"L", [("Iron", 50)]⟩] [] 1000000).edges f →
      flowConserved (buildGraph [⟨"A", 1, []⟩] [("Iron", 2)]
          [⟨"L", [("Iron", 50)]⟩] [] 1000000).edges f →
      flowValue (buildGraph [⟨"A", 1, []⟩] [("Iron", 2)]
          [⟨"L", [("Iron", 50)]⟩] [] 1000000) f < demandSum [("Iron", 2)]) ∧
    (solve_mission [⟨"A", 1, []⟩] [("Iron", 2)]
        [⟨"L", [("Iron", 50)]⟩] [] 1000000).total = 50 ∧
    flowValue (solve_mission [⟨"A", 1, []⟩] [("Iron", 2)]
        [⟨"L", [("Iron", 50)]⟩] [] 1000000).graph
      (solve_mission [⟨"A", 1, []⟩] [("Iron", 2)]
        [⟨"L", [("Iron", 50)]⟩] [] 1000000).flow = 1 := by
  refine ⟨?_, by decide, by decide⟩
  intro f hcap hcons
  have hedges : (buildGraph [⟨"A", 1, []⟩] [("Iron", 2)]
      [⟨"L", [("Iron", 50)]⟩] [] 1000000).edges
      = [(("Source", "A"), 1, 0), (("A", "L"), 1, 1000000), (("L", "L|Iron"), 1, -50),
         (("L|Iron", "Iron"), 1, 0), (("Iron", "Sink"), 2, 0)] := by decide
  have h1 : flookup f "A" "L" ≤ 1 := by
    have h2 := hcap (("A", "L"), 1, 1000000) (by rw [hedges]; simp)
    simpa using h2
  have hL := hcons "L" (by decide) (by decide)
  have hLI := hcons "L|Iron" (by decide) (by decide)
  have hI := hcons "Iron" (by decide) (by decide)
  unfold conservedAt at hL hLI hI
  rw [hedges] at hL hLI hI
  unfold flowValue demandSum
  rw [hedges]
  simp only [inflowAux, outflowAux] at hL hLI hI ⊢
  simp at hL hLI hI ⊢
  omega

/-- C1 witness: the flow actually computed on the infeasible scenario
respects the capacities and conservation, so its value is strictly below
the demand sum. -/
theorem claim_C1_witness :
    flowValue (buildGraph [⟨"A", 1, []⟩] [("Iron", 2)] [⟨"L", [("Iron", 50)]⟩] [] 1000000)
      (maxFlowMinCost (buildGraph [⟨"A", 1, []⟩] [("Iron", 2)]
        [⟨"L", [("Iron", 50)]⟩] [] 1000000))
      < demandSum [("Iron", 2)] :=
  claim_C1.1 (maxFlowMinCost (buildGraph [⟨"A", 1, []⟩] [("Iron", 2)]
      [⟨"L", [("Iron", 50)]⟩] [] 1000000))
    (maxFlowMinCost_invariants _ (by decide)).1
    (maxFlowMinCost_invariants _ (by decide)).2.2

/-- C2: for every agent and location of a structurally valid input, the
built network has an Agent to Location edge exactly when the location is
not banned for the agent, with capacity 1 and cost 0 when the pair appears
in the prior assignment and switching_cost otherwise; in the banned
scenario the total yield is 0 and the agent's work order list is empty. -/
theorem claim_C2 :
    (∀ (characters : List Character) (resource_targets : Targets) (pd : List Planet)
        (ca : Assignments) (sc : Int),
      ValidInput characters resource_targets pd →
      ∀ c ∈ characters, ∀ p ∈ pd,
        elookup (buildGraph characters resource_targets pd ca sc).edges c.id p.id
          = if p.id ∈ c.banned then none
            else some (1, if isExisting (priorPlanets ca c.id) p.id then 0 else sc)) ∧
    (solve_mission [⟨"A", 1, ["L"]⟩] [("Iron", 1)]
        [⟨"L", [("Iron", 50)]⟩] [] 1000000).total = 0 ∧
    (solve_mission [⟨"A", 1, ["L"]⟩] [("Iron", 1)]
        [⟨"L", [("Iron", 50)]⟩] [] 1000000).work_orders = [("A", [])] := by
  refine ⟨?_, by decide, by decide⟩
  intro characters resource_targets pd ca sc V c hc p hp
  exact elookup_buildGraph_agent characters resource_targets pd ca sc V c p hc hp

/-- C2 witness: on a concrete valid input with a prior assignment the agent
edge is present with capacity 1 and cost 0. -/
theorem claim_C2_witness :
    elookup (buildGraph [⟨"A", 1, []⟩] [("Iron", 1)] [⟨"L", [("Iron", 50)]⟩]
        [("A", Prior.pdict [("L", "Iron")])] 7).edges "A" "L" = some (1, 0) := by
  have h := claim_C2.1 [⟨"A", 1, []⟩] [("Iron", 1)] [⟨"L", [("Iron", 50)]⟩]
    [("A", Prior.pdict [("L", "Iron")])] 7 (by constructor <;> decide)
    ⟨"A", 1, []⟩ (by decide) ⟨"L", [("Iron", 50)]⟩ (by decide)
  rw [h]
  decide

/-- C3: one step of the stability pass assigns the visitor its previously
recorded resource and removes one instance from the uncollected multiset
and the visitor from the pending set exactly when that resource is still
present; every assignment the stability pass makes is the visitor's prior
resource; and in the concrete scenario agent B gets its previously held
Iron unit back. -/
theorem claim_C3 :
    (∀ (ca : Assignments) (pid : String)
        (st : List (String × Option String) × List String × List String) (v : String),
      (∃ r, preferredRes ca v pid = some r ∧ r ≠ "" ∧ r ∈ st.2.2 ∧
        stabStep ca pid st v = (dupdate v (some r) st.1, st.2.1.erase v, st.2.2.erase r)) ∨
      (stabStep ca pid st v = st ∧
        ∀ r, preferredRes ca v pid = some r → r ≠ "" → r ∉ st.2.2)) ∧
    (∀ (ca : Assignments) (pid : String) (visitors items : List String) (v : String)
        (o : Option String),
      dlookup v (stabilityPass ca pid visitors items).1 = some o →
      ∃ r, o = some r ∧ preferredRes ca v pid = some r) ∧
    (solve_mission [⟨"A", 1, []⟩, ⟨"B", 1, []⟩] [("Iron", 2)] [⟨"L", [("Iron", 10)]⟩]
        [("B", Prior.pdict [("L", "Iron")])] 1000000).work_orders
      = [("A", [Order.collect "L" "Iron" 10 OrderTag.newPlanet]),
         ("B", [Order.collect "L" "Iron" 10 OrderTag.unchanged])] := by
  refine ⟨stabStep_cases, ?_, by decide⟩
  intro ca pid visitors items v o hl
  refine stabFold_pref ca pid visitors ([], visitors, items) ?_ v o hl
  intro v2 o2 h2
  simp [dlookup] at h2

/-- C3 witness: on the concrete scenario the stability pass assigned agent B
exactly its prior resource. -/
theorem claim_C3_witness :
    ∃ r, (some "Iron" : Option String) = some r ∧
      preferredRes [("B", Prior.pdict [("L", "Iron")])] "B" "L" = some r :=
  claim_C3.2.1 [("B", Prior.pdict [("L", "Iron")])] "L" ["A", "B"] ["Iron", "Iron"]
    "B" (some "Iron") (by decide)

/-- C4: on every structurally valid input the total yield returned by
solve_mission equals the sum, over all resource units in the returned work
orders, of the abundance of that resource at the unit's location as given
by the planet data. -/
theorem claim_C4 (characters : List Character) (resource_targets : Targets)
    (pd : List Planet) (ca : Assignments) (sc : Int)
    (V : ValidInput characters resource_targets pd) :
    (solve_mission characters resource_targets pd ca sc).total
      = woSumIn pd (solve_mission characters resource_targets pd ca sc).work_orders := by
  obtain ⟨hcap, hfe, hcons⟩ := maxFlowMinCost_invariants
    (buildGraph characters resource_targets pd ca sc)
    (keysNodup_buildGraph characters resource_targets pd ca sc)
  obtain ⟨E1, E2, E3⟩ :=
    extractAll_spec characters resource_targets pd ca sc V _ hcap hfe hcons
  have htot : (solve_mission characters resource_targets pd ca sc).total
      = (extractAll ca characters (buildGraph characters resource_targets pd ca sc).edges
          (maxFlowMinCost (buildGraph characters resource_targets pd ca sc)) pd).2 := rfl
  have hwo : (solve_mission characters resource_targets pd ca sc).work_orders
      = (extractAll ca characters (buildGraph characters resource_targets pd ca sc).edges
          (maxFlowMinCost (buildGraph characters resource_targets pd ca sc)) pd).1 := rfl
  rw [htot, hwo, woSumIn_eq_woSum pd _ E3, E2]

/-- C4 witness: yield accounting on a concrete run. -/
theorem claim_C4_witness :
    (solve_mission [⟨"A", 1, []⟩] [("Iron", 2)] [⟨"L", [("Iron", 50)]⟩] [] 1000000).total
      = woSumIn [⟨"L", [("Iron", 50)]⟩]
        (solve_mission [⟨"A", 1, []⟩] [("Iron", 2)]
          [⟨"L", [("Iron", 50)]⟩] [] 1000000).work_orders :=
  claim_C4 [⟨"A", 1, []⟩] [("Iron", 2)] [⟨"L", [("Iron", 50)]⟩] [] 1000000
    (by constructor <;> decide)

/-- C5 counterexample: the original claim says structurally invalid inputs
are rejected before network construction with a validation failure.  On the
invalid input with duplicate agent identities solve_mission instead builds
the full five-edge network and returns a normal result. -/
theorem claim_C5_counterexample :
    (solve_mission [⟨"A", 1, []⟩, ⟨"A", 1, []⟩] [("Iron", 2)]
        [⟨"L", [("Iron", 50)]⟩] [] 0).graph.edges.length = 5 ∧
    (solve_mission [⟨"A", 1, []⟩, ⟨"A", 1, []⟩] [("Iron", 2)]
        [⟨"L", [("Iron", 50)]⟩] [] 0).total = 50 := by
  decide

/-- C5 (amended): solve_mission performs no structural input validation;
invalid inputs are processed like any other.  With duplicate agent
identities the duplicate entries collapse into a single work-order key, the
run returns total 50, and both order lines are No Collection placeholders
rather than any validation failure. -/
theorem claim_C5 :
    (solve_mission [⟨"A", 1, []⟩, ⟨"A", 1, []⟩] [("Iron", 2)]
        [⟨"L", [("Iron", 50)]⟩] [] 0).work_orders
      = [("A", [Order.noCollection "L", Order.noCollection "L"])] ∧
    flowValue (solve_mission [⟨"A", 1, []⟩, ⟨"A", 1, []⟩] [("Iron", 2)]
        [⟨"L", [("Iron", 50)]⟩] [] 0).graph
      (solve_mission [⟨"A", 1, []⟩, ⟨"A", 1, []⟩] [("Iron", 2)]
        [⟨"L", [("Iron", 50)]⟩] [] 0).flow = 1 := by
  decide

/-- C6: in the solved flow, for every resource in the demand targets of a
structurally valid input, the total flow into that resource's node never
exceeds the resource's target quantity. -/
theorem claim_C6 (characters : List Character) (resource_targets : Targets)
    (pd : List Planet) (ca : Assignments) (sc : Int)
    (V : ValidInput characters resource_targets pd)
    (rt : String × Nat) (hrt : rt ∈ resource_targets) :
    inflowAux (solve_mission characters resource_targets pd ca sc).graph.edges
      (solve_mission characters resource_targets pd ca sc).flow rt.1 ≤ rt.2 := by
  obtain ⟨hcap, hfe, hcons⟩ := maxFlowMinCost_invariants
    (buildGraph characters resource_targets pd ca sc)
    (keysNodup_buildGraph characters resource_targets pd ca sc)
  exact inflow_resource_le_target characters resource_targets pd ca sc V
    (maxFlowMinCost (buildGraph characters resource_targets pd ca sc)) hcap hcons rt hrt

/-- C6 witness: the demand ceiling on a concrete run. -/
theorem claim_C6_witness :
    inflowAux (solve_mission [⟨"A", 1, []⟩] [("Iron", 2)]
        [⟨"L", [("Iron", 50)]⟩] [] 1000000).graph.edges
      (solve_mission [⟨"A", 1, []⟩] [("Iron", 2)]
        [⟨"L", [("Iron", 50)]⟩] [] 1000000).flow "Iron" ≤ 2 :=
  claim_C6 [⟨"A", 1, []⟩] [("Iron", 2)] [⟨"L", [("Iron", 50)]⟩] [] 1000000
    (by constructor <;> decide) ("Iron", 2) (by decide)

/-- C8: solve_mission is deterministic: two runs on identical inputs (same
agents, targets, planet data, prior assignment and switching cost) return
identical totals and identical work-order lists.  The embedding is a pure
function of exactly these five inputs, so equal inputs force equal
outputs. -/
theorem claim_C8 (chars1 chars2 : List Character) (t1 t2 : Targets)
    (pd1 pd2 : List Planet) (ca1 ca2 : Assignments) (sc1 sc2 : Int)
    (hc : chars1 = chars2) (ht : t1 = t2) (hp : pd1 = pd2) (hca : ca1 = ca2)
    (hsc : sc1 = sc2) :
    (solve_mission chars1 t1 pd1 ca1 sc1).total
      = (solve_mission chars2 t2 pd2 ca2 sc2).total ∧
    (solve_mission chars1 t1 pd1 ca1 sc1).work_orders
      = (solve_mission chars2 t2 pd2 ca2 sc2).work_orders := by
  subst hc ht hp hca hsc
  exact ⟨rfl, rfl⟩

/-- C8 witness: two identical concrete runs agree. -/
theorem claim_C8_witness :
    (solve_mission [⟨"A", 1, []⟩] [("Iron", 2)] [⟨"L", [("Iron", 50)]⟩] [] 1000000).total
      = (solve_mission [⟨"A", 1, []⟩] [("Iron", 2)] [⟨"L", [("Iron", 50)]⟩] [] 1000000).total ∧
    (solve_mission [⟨"A", 1, []⟩] [("Iron", 2)]
        [⟨"L", [("Iron", 50)]⟩] [] 1000000).work_orders
      = (solve_mission [⟨"A", 1, []⟩] [("Iron", 2)]
        [⟨"L", [("Iron", 50)]⟩] [] 1000000).work_orders :=
  claim_C8 [⟨"A", 1, []⟩] [⟨"A", 1, []⟩] [("Iron", 2)] [("Iron", 2)]
    [⟨"L", [("Iron", 50)]⟩] [⟨"L", [("Iron", 50)]⟩] [] [] 1000000 1000000
    rfl rfl rfl rfl rfl

/-- C9: under any flow on the built network that respects the capacities, is
supported on the edges, and is conserved, every location's visitor count
equals the number of resource units collected there, and the extraction
never takes the No Collection branch: every order line it produces is a
real collection entry. -/
theorem claim_C9 (characters : List Character) (resource_targets : Targets)
    (pd : List Planet) (ca : Assignments) (sc : Int)
    (V : ValidInput characters resource_targets pd) (f : FlowMap)
    (hcap : capRespects (buildGraph characters resource_targets pd ca sc).edges f)
    (hfe : flowOnEdges (buildGraph characters resource_targets pd ca sc).edges f)
    (hcons : flowConserved (buildGraph characters resource_targets pd ca sc).edges f) :
    (∀ p ∈ pd, (visitorsAt characters f p.id).length
      = (itemsAt (buildGraph characters resource_targets pd ca sc).edges p f).1.length) ∧
    ∀ kv ∈ (extractAll ca characters (buildGraph characters resource_targets pd ca sc).edges
        f pd).1, ∀ o ∈ kv.2, o.isCollect = true := by
  refine ⟨fun p hp =>
    visitors_items_length characters resource_targets pd ca sc V p hp f hcap hfe hcons, ?_⟩
  intro kv hkv o ho
  exact ((extractAll_spec characters resource_targets pd ca sc V f
    hcap hfe hcons).2.2 kv hkv o ho).1

/-- C9 witness: the computed flow of a concrete run satisfies the three flow
hypotheses, so its visitor and item counts agree and its orders are all
collection entries. -/
theorem claim_C9_witness :
    (∀ p ∈ ([⟨"L", [("Iron", 50)]⟩] : List Planet),
      (visitorsAt [⟨"A", 1, []⟩]
        (maxFlowMinCost (buildGraph [⟨"A", 1, []⟩] [("Iron", 2)]
          [⟨"L", [("Iron", 50)]⟩] [] 1000000)) p.id).length
      = (itemsAt (buildGraph [⟨"A", 1, []⟩] [("Iron", 2)]
          [⟨"L", [("Iron", 50)]⟩] [] 1000000).edges p
          (maxFlowMinCost (buildGraph [⟨"A", 1, []⟩] [("Iron", 2)]
            [⟨"L", [("Iron", 50)]⟩] [] 1000000))).1.length) ∧
    ∀ kv ∈ (extractAll [] [⟨"A", 1, []⟩]
        (buildGraph [⟨"A", 1, []⟩] [("Iron", 2)] [⟨"L", [("Iron", 50)]⟩] [] 1000000).edges
        (maxFlowMinCost (buildGraph [⟨"A", 1, []⟩] [("Iron", 2)]
          [⟨"L", [("Iron", 50)]⟩] [] 1000000))
        [⟨"L", [("Iron", 50)]⟩]).1, ∀ o ∈ kv.2, o.isCollect = true :=
  claim_C9 [⟨"A", 1, []⟩] [("Iron", 2)] [⟨"L", [("Iron", 50)]⟩] [] 1000000
    (by constructor <;> decide)
    (maxFlowMinCost (buildGraph [⟨"A", 1, []⟩] [("Iron", 2)]
      [⟨"L", [("Iron", 50)]⟩] [] 1000000))
    (maxFlowMinCost_invariants _ (by decide)).1
    (maxFlowMinCost_invariants _ (by decide)).2.1
    (maxFlowMinCost_invariants _ (by decide)).2.2

/-- C10: an agent whose prior-assignment entry is a bare list of location
identities is treated as prior for edge costs (its Agent to Location edge
for a listed, unbanned location has cost 0), but the stability pass sees no
preferred resource for that agent at any location, leaves the agent
unassigned there, and keeps the agent in the pending set for the
leftover-filling pass. -/
theorem claim_C10 (characters : List Character) (resource_targets : Targets)
    (pd : List Planet) (ca : Assignments) (sc : Int)
    (V : ValidInput characters resource_targets pd)
    (c : Character) (hc : c ∈ characters) (p : Planet) (hp : p ∈ pd)
    (l : List String) (hl : dlookup c.id ca = some (Prior.plist l))
    (hmem : p.id ∈ l) (hnb : p.id ∉ c.banned) :
    elookup (buildGraph characters resource_targets pd ca sc).edges c.id p.id
      = some (1, 0) ∧
    (∀ pid, preferredRes ca c.id pid = none) ∧
    ∀ (pid : String) (visitors items : List String),
      dlookup c.id (stabilityPass ca pid visitors items).1 = none ∧
      (c.id ∈ (stabilityPass ca pid visitors items).2.1 ↔ c.id ∈ visitors) := by
  have hpref : ∀ pid, preferredRes ca c.id pid = none := by
    intro pid
    simp [preferredRes, hl]
  refine ⟨?_, hpref, ?_⟩
  · rw [elookup_buildGraph_agent characters resource_targets pd ca sc V c p hc hp,
      if_neg hnb]
    have hex : isExisting (priorPlanets ca c.id) p.id = true := by
      unfold priorPlanets
      rw [hl]
      simp [isExisting, List.elem_iff, hmem]
    rw [hex]
    simp
  · intro pid visitors items
    obtain ⟨h1, h2⟩ := stabFold_none ca pid c.id (hpref pid) visitors ([], visitors, items)
    exact ⟨h1, h2⟩

/-- C10 witness: a concrete agent with a list-shaped prior entry gets the
cost-0 edge and is untouched by the stability pass. -/
theorem claim_C10_witness :
    elookup (buildGraph [⟨"A", 1, []⟩] [("Iron", 1)] [⟨"L", [("Iron", 50)]⟩]
        [("A", Prior.plist ["L"])] 99).edges "A" "L" = some (1, 0) ∧
    (∀ pid, preferredRes [("A", Prior.plist ["L"])] "A" pid = none) ∧
    ∀ (pid : String) (visitors items : List String),
      dlookup "A" (stabilityPass [("A", Prior.plist ["L"])] pid visitors items).1 = none ∧
      ("A" ∈ (stabilityPass [("A", Prior.plist ["L"])] pid visitors items).2.1 ↔
        "A" ∈ visitors) :=
  claim_C10 [⟨"A", 1, []⟩] [("Iron", 1)] [⟨"L", [("Iron", 50)]⟩]
    [("A", Prior.plist ["L"])] 99 (by constructor <;> decide)
    ⟨"A", 1, []⟩ (by decide) ⟨"L", [("Iron", 50)]⟩ (by decide)
    ["L"] (by decide) (by decide) (by decide)

end EvePi
